import Mathlib

/-!
# tanda-ping-go: ping store and range queries

A shallow embedding of `server.go`.  Go values are modelled as follows.

* `int64` values are integers (`Int`); the handlers only compare them, the
  places where the standard library does wrapping arithmetic on them are
  modelled with explicit reductions modulo `2 ^ 64`.
* A slice `[]int64` is `Option (List Int)`: `none` is the nil slice, which
  `encoding/json` renders as `null`, while `some []` is the empty non-nil slice
  rendered as `[]`.
* A `map[string][]int64` is an optional association list with unique keys.
* The mongo collection is the list of its documents, in natural order.  The
  driver is modelled on a healthy session: a query fails only with
  `mgo.ErrNotFound`.  The data store also records the driver calls made on it,
  so that a handler that does not touch the database can be told apart.
* A handler is a function from the data store and the response writer to the
  response writer and the data store after the request.

The definitions come first: the Go standard library functions the handlers
call, the handlers, and the vocabulary of the specification.  The lemmas and
the theorems C1 to C10 follow.
-/

namespace TandaPing

/-! ## Slices -/

/-- A Go slice `[]int64`; `none` is the nil slice. -/
abbrev Slice := Option (List Int)

/-- The elements of a slice; the nil slice has none. -/
def Slice.elems : Slice → List Int
  | none => []
  | some xs => xs

/-- Go `append(s, x)`: appending to the nil slice allocates. -/
def Slice.append : Slice → Int → Slice
  | none, x => some [x]
  | some xs, x => some (xs ++ [x])

/-! ## getPingsIn (server.go, lines 209-217) -/

/-- The `for _, ping := range pings` loop of `getPingsIn`; `acc` is the named
result `in`. -/
def getPingsInLoop (start end_ : Int) : List Int → Slice → Slice
  | [], acc => acc
  | ping :: rest, acc =>
    if ping ≥ start ∧ ping < end_ then
      getPingsInLoop start end_ rest (acc.append ping)
    else
      getPingsInLoop start end_ rest acc

/-- Get pings that are in the range `[start, end)`.  The named result `in`
starts as the nil slice. -/
def getPingsIn (pings : List Int) (start end_ : Int) : Slice :=
  getPingsInLoop start end_ pings none

/-! ## Machine integers -/

/-- Conversion to `uint64`: reduction modulo `2 ^ 64`. -/
def u64 (x : Int) : Int := x % 18446744073709551616

/-- Conversion to `int64`: two's complement reduction into `[-2 ^ 63, 2 ^ 63)`. -/
def i64 (x : Int) : Int :=
  (x + 9223372036854775808) % 18446744073709551616 - 9223372036854775808

/-! ## strconv.ParseInt(s, 10, 64)

The Go standard library function, specialised to base 10 and bit size 64 as
the handlers call it.  A Go string is a byte sequence; tokens are modelled as
lists of characters, a character outside ASCII standing for bytes that are
neither digits nor signs. -/

deriving instance DecidableEq for Except

/-- The two errors of `strconv`: `ErrSyntax` and `ErrRange`. -/
inductive NumError where
  | syntaxErr
  | rangeErr
  deriving DecidableEq, Repr

/-- Constant `maxUint64`. -/
def maxUint64 : Int := 18446744073709551615

/-- The digit loop of `ParseUint` for base 10: `n` is the value read so far.
Returns the value and the error, as the Go function does. -/
def ParseUintLoop : List Char → Int → Int × Option NumError
  | [], n => (n, none)
  | d :: rest, n =>
    if '0' ≤ d ∧ d ≤ '9' then
      let v : Int := d.toNat - ('0').toNat
      -- cutoff = maxUint64/10 + 1
      if n ≥ maxUint64 / 10 + 1 then
        (maxUint64, some .rangeErr)
      else
        let n10 := u64 (n * 10)
        let n1 := u64 (n10 + v)
        if n1 < n10 ∨ n1 > maxUint64 then
          (maxUint64, some .rangeErr)
        else
          ParseUintLoop rest n1
    else
      -- letters give v >= base, every other byte is the default case
      (0, some .syntaxErr)

/-- Go `strconv.ParseUint(s, 10, 64)`. -/
def ParseUint (s : List Char) : Int × Option NumError :=
  if s.length < 1 then (0, some .syntaxErr) else ParseUintLoop s 0

/-- Go `strconv.ParseInt(s, 10, 64)`: `.ok n` when `err == nil`. -/
def ParseInt (s : List Char) : Except NumError Int :=
  match s with
  | [] => .error .syntaxErr
  | c :: t =>
    let neg := decide (c = '-')
    let s1 := if c = '+' then t else if c = '-' then t else c :: t
    let r := ParseUint s1
    let un := r.1
    if r.2 = some .syntaxErr then
      .error .syntaxErr
    else
      let cutoff : Int := 9223372036854775808
      if ¬ neg ∧ un ≥ cutoff then
        .error .rangeErr
      else if neg ∧ un > cutoff then
        .error .rangeErr
      else
        let n := i64 un
        .ok (if neg then i64 (-n) else n)

/-! ## Package time

The parts of the Go standard library `time` package reached from the
handlers: `Parse` with the layout `2006-01-02`, `Date`, `Time.Unix` and
`Time.AddDate`, in the implementation based on the absolute epoch
(year -292277022399).  Every time is in UTC and has no nanoseconds. -/

def secondsPerMinute : Int := 60
def secondsPerHour : Int := 60 * secondsPerMinute
def secondsPerDay : Int := 24 * secondsPerHour
def daysPer400Years : Int := 365 * 400 + 97
def daysPer100Years : Int := 365 * 100 + 24
def daysPer4Years : Int := 365 * 4 + 1

def absoluteZeroYear : Int := -292277022399
def internalYear : Int := 1

/-- Go: `(absoluteZeroYear - internalYear) * 365.2425 * secondsPerDay`, an
exact constant expression. -/
def absoluteToInternal : Int :=
  (absoluteZeroYear - internalYear) * 3652425 / 10000 * secondsPerDay
def internalToAbsolute : Int := -absoluteToInternal

def unixToInternal : Int :=
  (1969 * 365 + 1969 / 4 - 1969 / 100 + 1969 / 400) * secondsPerDay
def internalToUnix : Int := -unixToInternal

/-- A `time.Time` in UTC without nanoseconds or monotonic reading: `ext` is
the number of seconds since January 1, year 1. -/
structure Time where
  ext : Int
  deriving DecidableEq, Repr

/-- Go `unixTime(sec, 0)`. -/
def unixTime (sec : Int) : Time := ⟨i64 (sec + unixToInternal)⟩

/-- Go `Time.Unix`. -/
def Time.Unix (t : Time) : Int := i64 (t.ext + internalToUnix)

/-- Go `Time.abs`: seconds since the absolute zero year, as a `uint64`. -/
def Time.abs (t : Time) : Int :=
  u64 (i64 (t.Unix + i64 (unixToInternal + internalToAbsolute)))

/-- Go `isLeap`; `%` is the truncated remainder. -/
def isLeap (year : Int) : Bool :=
  year.tmod 4 = 0 ∧ (year.tmod 100 ≠ 0 ∨ year.tmod 400 = 0)

/-- Go table `daysBefore`: days in a non-leap year before month `m + 1`. -/
def daysBefore (m : Int) : Int :=
  [0, 31, 59, 90, 120, 151, 181, 212, 243, 273, 304, 334, 365].getD m.toNat 0

/-- Go `daysIn`. -/
def daysIn (m year : Int) : Int :=
  if m = 2 ∧ isLeap year then 29 else daysBefore m - daysBefore (m - 1)

/-- Go `norm`: returns `nhi, nlo` with `hi * base + lo == nhi * base + nlo`
and `0 <= nlo < base`. -/
def norm (hi lo base : Int) : Int × Int :=
  let r1 : Int × Int :=
    if lo < 0 then
      let n := (-lo - 1).tdiv base + 1
      (hi - n, lo + n * base)
    else (hi, lo)
  if r1.2 ≥ base then
    let n := r1.2.tdiv base
    (r1.1 + n, r1.2 - n * base)
  else r1

/-- Go `time.Date(year, month, day, hour, min, sec, nsec, time.UTC)` for
a `nsec` whose normalised value is zero. -/
def Date (year month day hour min sec nsec : Int) : Time :=
  -- Normalize month, overflowing into year.
  let m := month - 1
  let ym := norm year m 12
  let year := ym.1
  let month := ym.2 + 1
  -- Normalize nsec, sec, min, hour, overflowing into day.
  let sn := norm sec nsec 1000000000
  let ms := norm min sn.1 60
  let hm := norm hour ms.1 60
  let dh := norm day hm.1 24
  let sec := ms.2
  let min := hm.2
  let hour := dh.2
  let day := dh.1
  let y := u64 (i64 (year - absoluteZeroYear))
  -- Add in days from 400-year cycles.
  let n := y / 400
  let y := u64 (y - u64 (400 * n))
  let d := u64 (daysPer400Years * n)
  -- Add in 100-year cycles.
  let n := y / 100
  let y := u64 (y - u64 (100 * n))
  let d := u64 (d + u64 (daysPer100Years * n))
  -- Add in 4-year cycles.
  let n := y / 4
  let y := u64 (y - u64 (4 * n))
  let d := u64 (d + u64 (daysPer4Years * n))
  -- Add in non-leap years.
  let n := y
  let d := u64 (d + u64 (365 * n))
  -- Add in days before this month.
  let d := u64 (d + u64 (daysBefore (month - 1)))
  let d := if isLeap year ∧ month ≥ 3 then u64 (d + 1) else d
  -- Add in days before today.
  let d := u64 (d + u64 (day - 1))
  -- Add in time elapsed today.
  let abs := u64 (d * secondsPerDay)
  let abs := u64 (abs + u64 (hour * secondsPerHour + min * secondsPerMinute + sec))
  let unix := i64 (i64 abs + i64 (absoluteToInternal + internalToUnix))
  unixTime unix

/-- Go `absDate(abs, true)`: year, month and day of month of an absolute
time. -/
def absDate (abs : Int) : Int × Int × Int :=
  -- Split into time and day.
  let d := abs / secondsPerDay
  -- Account for 400 year cycles.
  let n := d / daysPer400Years
  let y := u64 (400 * n)
  let d := u64 (d - u64 (daysPer400Years * n))
  -- Cut off 100-year cycles.
  let n := d / daysPer100Years
  let n := u64 (n - n / 4)
  let y := u64 (y + u64 (100 * n))
  let d := u64 (d - u64 (daysPer100Years * n))
  -- Cut off 4-year cycles.
  let n := d / daysPer4Years
  let y := u64 (y + u64 (4 * n))
  let d := u64 (d - u64 (daysPer4Years * n))
  -- Cut off years within a 4-year cycle.
  let n := d / 365
  let n := u64 (n - n / 4)
  let y := u64 (y + n)
  let d := u64 (d - u64 (365 * n))
  let year := i64 (i64 y + absoluteZeroYear)
  let yday := d
  let day := yday
  if isLeap year ∧ day = 31 + 29 - 1 then
    -- Leap day.
    (year, 2, 29)
  else
    -- After leap day; pretend it wasn't there.
    let day := if isLeap year ∧ day > 31 + 29 - 1 then day - 1 else day
    -- Estimate month on assumption that every month has 31 days.
    let month := day.tdiv 31
    let end_ := daysBefore (month + 1)
    let mb : Int × Int :=
      if day ≥ end_ then (month + 1, end_) else (month, daysBefore month)
    (year, mb.1 + 1, day - mb.2 + 1)

/-- Go `absClock`: hour, minute and second of an absolute time. -/
def absClock (abs : Int) : Int × Int × Int :=
  let sec := abs % secondsPerDay
  let hour := sec.tdiv secondsPerHour
  let sec := sec - hour * secondsPerHour
  let min := sec.tdiv secondsPerMinute
  let sec := sec - min * secondsPerMinute
  (hour, min, sec)

/-- Go `Time.AddDate(years, months, days)`. -/
def Time.AddDate (t : Time) (years months days : Int) : Time :=
  let ymd := absDate t.abs
  let hms := absClock t.abs
  Date (ymd.1 + years) (ymd.2.1 + months) (ymd.2.2 + days) hms.1 hms.2.1 hms.2.2 0

/-- Go `isDigit(s, i)` of package time. -/
def isDigit (s : List Char) (i : Nat) : Bool :=
  match s.get? i with
  | none => false
  | some c => '0' ≤ c ∧ c ≤ '9'

/-- Value of a decimal digit byte, `c - '0'`. -/
def digitVal (c : Char) : Int := c.toNat - ('0').toNat

/-- Go `getnum(s, true)` of package time: exactly two digits. -/
def getnum (s : List Char) : Option (Int × List Char) :=
  if ¬ isDigit s 0 then none
  else if ¬ isDigit s 1 then none
  else
    match s with
    | c0 :: c1 :: rest => some (digitVal c0 * 10 + digitVal c1, rest)
    | _ => none

/-- Go `atoi` of package time on the four bytes of a long year, the first of
which is a digit: every byte has to be a digit. -/
def atoi (p : List Char) : Option Int :=
  p.foldl (fun acc c =>
    match acc with
    | none => none
    | some x => if '0' ≤ c ∧ c ≤ '9' then some (x * 10 + digitVal c) else none) (some 0)

/-- Go `time.Parse("2006-01-02", value)`; `none` when `err != nil`. -/
def Parse (value : List Char) : Option Time :=
  -- stdLongYear
  if value.length < 4 ∨ ¬ isDigit value 0 then none
  else
    match atoi (value.take 4) with
    | none => none
    | some year =>
      -- literal "-"
      match value.drop 4 with
      | [] => none
      | c :: value =>
        if c ≠ '-' then none
        else
          -- stdZeroMonth
          match getnum value with
          | none => none
          | some (month, value) =>
            if month ≤ 0 ∨ 12 < month then none
            else
              -- literal "-"
              match value with
              | [] => none
              | c :: value =>
                if c ≠ '-' then none
                else
                  -- stdZeroDay
                  match getnum value with
                  | none => none
                  | some (day, value) =>
                    -- extra text
                    if value.length ≠ 0 then none
                    -- Validate the day of the month.
                    else if day < 1 ∨ day > daysIn month year then none
                    else some (Date year month day 0 0 0 0)

/-! ## encoding/json

`json.Marshal` on the three Go types the handlers pass to it.  Byte slices
are modelled as strings. -/

/-- A Go `map[string][]int64`: `none` is the nil map, `some` an association
list with one entry per key. -/
abbrev GoMap := Option (List (String × Slice))

/-- Go `m[k]`, with the comma-ok result. -/
def GoMap.get (m : GoMap) (k : String) : Option Slice :=
  match m with
  | none => none
  | some es => (es.find? (fun e => e.1 = k)).map (fun e => e.2)

/-- Replace the value of key `k`, or add the key at the end. -/
def setEntry (k : String) (v : Slice) : List (String × Slice) → List (String × Slice)
  | [] => [(k, v)]
  | e :: es => if e.1 = k then (k, v) :: es else e :: setEntry k v es

/-- Go `m[k] = v`.  The assignment panics on a nil map; the handlers only
assign to a map made by a literal. -/
def GoMap.set (m : GoMap) (k : String) (v : Slice) : GoMap :=
  match m with
  | none => none
  | some es => some (setEntry k v es)

/-- Decimal text of an `int64`. -/
def formatInt (i : Int) : String :=
  if i < 0 then "-" ++ Nat.repr i.natAbs else Nat.repr i.natAbs

/-- Join texts with commas. -/
def joinComma : List String → String
  | [] => ""
  | [x] => x
  | x :: y :: rest => x ++ "," ++ joinComma (y :: rest)

/-- Hexadecimal digit, as in the table `hex` of encoding/json. -/
def hexDigit (n : Nat) : Char :=
  ("0123456789abcdef".toList).getD n '0'

/-- One character of a JSON string as `json.Marshal` writes it (HTML
escaping on). -/
def quoteChar (c : Char) : String :=
  if c = '\\' then "\\\\"
  else if c = '"' then "\\\""
  else if c = '\n' then "\\n"
  else if c = '\r' then "\\r"
  else if c = '\t' then "\\t"
  else if c.toNat < 32 ∨ c = '<' ∨ c = '>' ∨ c = '&' then
    "\\u00" ++ String.mk [hexDigit (c.toNat / 16), hexDigit (c.toNat % 16)]
  else if c.toNat = 8232 ∨ c.toNat = 8233 then
    "\\u202" ++ String.mk [hexDigit (c.toNat % 16)]
  else String.mk [c]

/-- A JSON string literal. -/
def quoteString (s : String) : String :=
  "\"" ++ String.join (s.toList.map quoteChar) ++ "\""

/-- Go `json.Marshal` of a `[]int64`. -/
def marshalInts : Slice → String
  | none => "null"
  | some xs => "[" ++ joinComma (xs.map formatInt) ++ "]"

/-- Go `json.Marshal` of a non-nil `[]string`. -/
def marshalStrings (xs : List String) : String :=
  "[" ++ joinComma (xs.map quoteString) ++ "]"

/-- Go `json.Marshal` of a `map[string][]int64`: keys in sorted order. -/
def marshalMap : GoMap → String
  | none => "null"
  | some es =>
    "\x7b" ++ joinComma
      ((es.insertionSort (fun a b => a.1.toList ≤ b.1.toList)).map
        (fun e => quoteString e.1 ++ ":" ++ marshalInts e.2)) ++ "\x7d"

/-! ## The mongo collection -/

/-- A device with a device id and a list of pings. -/
structure Device where
  DeviceId : String
  Pings : List Int
  deriving DecidableEq, Repr

/-- A call of the database driver. -/
inductive DriverCall where
  | removeAll
  | findAll
  | findOne (device_id : String)
  | upsert (device_id : String) (unix : Int)
  deriving DecidableEq, Repr

/-- The data store: the documents of collection `devices` of the session,
and the record of the driver calls made on it so far. -/
structure DataStore where
  collection : List Device
  calls : List DriverCall
  deriving DecidableEq, Repr

/-- The error of a query that finds no document, `mgo.ErrNotFound`. -/
inductive DriverError where
  | notFound
  deriving DecidableEq, Repr

/-- Driver: `ds.collection.RemoveAll(nil)`. -/
def DataStore.RemoveAll (ds : DataStore) : DataStore :=
  { collection := [], calls := ds.calls ++ [.removeAll] }

/-- Driver: `ds.collection.Find(nil).All(&devices)`. -/
def DataStore.FindAll (ds : DataStore) : Except DriverError (List Device) × DataStore :=
  (.ok ds.collection, { ds with calls := ds.calls ++ [.findAll] })

/-- Driver: `ds.collection.Find(bson.M{"deviceid": device_id}).One(&device)`. -/
def DataStore.FindOne (ds : DataStore) (device_id : String) :
    Except DriverError Device × DataStore :=
  (match ds.collection.find? (fun d => d.DeviceId = device_id) with
    | some d => .ok d
    | none => .error .notFound,
   { ds with calls := ds.calls ++ [.findOne device_id] })

/-- The update `$addToSet: {pings: unix}` on the first document matching the
selector `{deviceid: device_id}`; a new document when none matches. -/
def addToSet (device_id : String) (unix : Int) : List Device → List Device
  | [] => [{ DeviceId := device_id, Pings := [unix] }]
  | d :: rest =>
    if d.DeviceId = device_id then
      (if unix ∈ d.Pings then d else { d with Pings := d.Pings ++ [unix] }) :: rest
    else d :: addToSet device_id unix rest

/-- Driver: `ds.collection.Upsert(selector, upsert)` of `postPing`. -/
def DataStore.Upsert (ds : DataStore) (device_id : String) (unix : Int) :
    Except DriverError Unit × DataStore :=
  (.ok (), { collection := addToSet device_id unix ds.collection,
             calls := ds.calls ++ [.upsert device_id unix] })

/-! ## net/http -/

def StatusOK : Nat := 200
def StatusBadRequest : Nat := 400

/-- What a handler has written so far; `status` is `none` until the header
is written. -/
structure ResponseWriter where
  status : Option Nat
  body : String
  deriving DecidableEq, Repr

/-- A fresh response writer. -/
def ResponseWriter.new : ResponseWriter := ⟨none, ""⟩

/-- Go `w.WriteHeader(code)`; a second call is ignored. -/
def ResponseWriter.WriteHeader (w : ResponseWriter) (code : Nat) : ResponseWriter :=
  match w.status with
  | none => { w with status := some code }
  | some _ => w

/-- Go `w.Write(b)`; writes the header with `StatusOK` if it is not written
yet. -/
def ResponseWriter.Write (w : ResponseWriter) (b : String) : ResponseWriter :=
  let w1 := w.WriteHeader StatusOK
  { w1 with body := w1.body ++ b }

/-- The status the client receives: `StatusOK` when the handler returns
without writing the header. -/
def ResponseWriter.code (w : ResponseWriter) : Nat := w.status.getD StatusOK

/-! ## The handlers of server.go -/

/-- Source `clearData`: remove all devices and pings from the database. -/
def clearData (ds : DataStore) (w : ResponseWriter) : ResponseWriter × DataStore :=
  let ds1 := ds.RemoveAll
  (w.WriteHeader StatusOK, ds1)

/-- Source `getDevices`: get all devices in the database. -/
def getDevices (ds : DataStore) (w : ResponseWriter) : ResponseWriter × DataStore :=
  match ds.FindAll with
  | (.error _, ds1) => (w.WriteHeader StatusBadRequest, ds1)
  | (.ok devices, ds1) =>
    let list := devices.map (fun device => device.DeviceId)
    let b := marshalStrings list
    ((w.WriteHeader StatusOK).Write b, ds1)

/-- Source `postPing`: add a ping to the database.  A driver error ends the
process (`log.Fatal`), nothing is written then. -/
def postPing (ds : DataStore) (w : ResponseWriter) (device_id epoch_time : String) :
    ResponseWriter × DataStore :=
  match ParseInt epoch_time.toList with
  | .error _ => (w.WriteHeader StatusBadRequest, ds)
  | .ok unix =>
    match ds.Upsert device_id unix with
    | (.error _, ds1) => (w, ds1)
    | (.ok _, ds1) => (w, ds1)

/-- The `for _, device := range devices` loop of `getPings`. -/
def getPingsLoop (start end_ : Int) : List Device → GoMap → GoMap
  | [], data => data
  | device :: rest, data =>
    let pings := getPingsIn device.Pings start end_
    if pings ≠ none then
      getPingsLoop start end_ rest
        (data.set device.DeviceId (getPingsIn device.Pings start end_))
    else
      getPingsLoop start end_ rest data

/-- Source `getPings`: get pings for all devices if `device_id == "all"` or
get pings for a specific device.  Returns the body and the flag `bad`. -/
def getPings (ds : DataStore) (device_id : String) (start end_ : Int) :
    (String × Bool) × DataStore :=
  if device_id = "all" then
    let data0 : GoMap := some []
    match ds.FindAll with
    | (.error _, ds1) => ((marshalInts (some []), true), ds1)
    | (.ok devices, ds1) =>
      let data := getPingsLoop start end_ devices data0
      if data ≠ none then
        ((marshalMap data, false), ds1)
      else
        ((marshalInts (some []), false), ds1)
  else
    match ds.FindOne device_id with
    | (.error _, ds1) => ((marshalInts (some []), true), ds1)
    | (.ok device, ds1) =>
      let pings := getPingsIn device.Pings start end_
      if pings ≠ none then
        ((marshalInts pings, false), ds1)
      else
        ((marshalInts (some []), false), ds1)

/-- Source `getRange`: get ping(s) for device(s) between the range start and
end. -/
def getRange (ds : DataStore) (w : ResponseWriter) (device_id from_ to_ : String) :
    ResponseWriter × DataStore :=
  let startR : Option Int :=
    match Parse from_.toList with
    | none =>
      -- could be unix timestamp or bad request
      match ParseInt from_.toList with
      | .error _ => none
      | .ok i => some i
    | some t1 => some t1.Unix
  match startR with
  | none => ((w.WriteHeader StatusBadRequest).Write (marshalInts (some [])), ds)
  | some start =>
    let endR : Option Int :=
      match Parse to_.toList with
      | none =>
        -- could be unix timestamp or bad request
        match ParseInt to_.toList with
        | .error _ => none
        | .ok i => some i
      | some t2 => some (t2.AddDate 0 0 1).Unix
    match endR with
    | none => ((w.WriteHeader StatusBadRequest).Write (marshalInts (some [])), ds)
    | some end_ =>
      let r := getPings ds device_id start end_
      let b := r.1.1
      let bad := r.1.2
      ((if bad then w.WriteHeader StatusBadRequest else w).Write b, r.2)

/-- Source `getDate`: get ping(s) for device(s) on a specific date. -/
def getDate (ds : DataStore) (w : ResponseWriter) (device_id date : String) :
    ResponseWriter × DataStore :=
  match Parse date.toList with
  | none => ((w.WriteHeader StatusBadRequest).Write (marshalInts (some [])), ds)
  | some t =>
    let start := t.Unix
    let end_ := (t.AddDate 0 0 1).Unix
    let r := getPings ds device_id start end_
    let b := r.1.1
    let bad := r.1.2
    ((if bad then w.WriteHeader StatusBadRequest else w).Write b, r.2)

/-! ## Specification vocabulary

The notions the specification uses to state what the handlers compute: the
Gregorian calendar, the epoch second of a midnight in UTC, the date a token
writes, and the window of a query. -/

/-- Gregorian leap year. -/
def leapYear (y : Int) : Bool := y % 4 = 0 ∧ (y % 100 ≠ 0 ∨ y % 400 = 0)

/-- Number of days of month `m` of year `y`. -/
def monthLength (y m : Int) : Int :=
  if m = 2 then (if leapYear y then 29 else 28)
  else if m = 4 ∨ m = 6 ∨ m = 9 ∨ m = 11 then 30
  else 31

/-- Number of leap years among the years `1, ..., y - 1` (counted downwards
for `y < 1`). -/
def leapsBefore (y : Int) : Int := (y - 1) / 4 - (y - 1) / 100 + (y - 1) / 400

/-- Number of days of year `y` before the first of month `m`. -/
def daysBeforeMonth (y m : Int) : Int :=
  ((List.range (m.toNat - 1)).map (fun k => monthLength y (k + 1))).sum

/-- Number of days from 1970-01-01 to the day `d` of month `m` of year `y`. -/
def daysFromEpoch (y m d : Int) : Int :=
  365 * (y - 1970) + (leapsBefore y - leapsBefore 1970) + daysBeforeMonth y m + (d - 1)

/-- Epoch second of `y-m-d` at 00:00:00 UTC. -/
def midnightUTC (y m d : Int) : Int := daysFromEpoch y m d * 86400

/-- The calendar day after `y-m-d`. -/
def nextDay (y m d : Int) : Int × Int × Int :=
  if d < monthLength y m then (y, m, d + 1)
  else if m < 12 then (y, m + 1, 1)
  else (y + 1, 1, 1)

/-- A decimal digit. -/
def decDigit (c : Char) : Prop := '0' ≤ c ∧ c ≤ '9'

instance (c : Char) : Decidable (decDigit c) := by
  unfold decDigit; infer_instance

/-- The date a token of the form `YYYY-MM-DD` writes: four digits, a dash,
two digits, a dash, two digits, naming a day of the calendar. -/
def civilDate (s : List Char) : Option (Int × Int × Int) :=
  match s with
  | [y1, y2, y3, y4, s1, m1, m2, s2, d1, d2] =>
    let y := 1000 * digitVal y1 + 100 * digitVal y2 + 10 * digitVal y3 + digitVal y4
    let m := 10 * digitVal m1 + digitVal m2
    let d := 10 * digitVal d1 + digitVal d2
    if (decDigit y1 ∧ decDigit y2 ∧ decDigit y3 ∧ decDigit y4 ∧ decDigit m1 ∧ decDigit m2
          ∧ decDigit d1 ∧ decDigit d2) ∧ s1 = '-' ∧ s2 = '-'
        ∧ 1 ≤ m ∧ m ≤ 12 ∧ 1 ≤ d ∧ d ≤ monthLength y m then
      some (y, m, d)
    else none
  | _ => none

/-- Value of a digit string read from the left, starting from `n`. -/
def digitsFrom (n : Int) (s : List Char) : Int :=
  s.foldl (fun acc c => acc * 10 + digitVal c) n

/-- The integer a token writes in base 10: an optional sign and at least one
digit, with a value that fits `int64`. -/
def intToken (s : List Char) : Option Int :=
  match s with
  | [] => none
  | c :: t =>
    let body := if c = '+' ∨ c = '-' then t else c :: t
    if body ≠ [] ∧ ∀ x ∈ body, decDigit x then
      let v : Int := if c = '-' then - digitsFrom 0 body else digitsFrom 0 body
      if -9223372036854775808 ≤ v ∧ v ≤ 9223372036854775807 then some v else none
    else none

/-- The lower bound a `from` token stands for: midnight UTC of its date, or
the integer it writes. -/
def startBound (tok : List Char) : Option Int :=
  match civilDate tok with
  | some (y, m, d) => some (midnightUTC y m d)
  | none => intToken tok

/-- The upper bound a `to` token stands for: midnight UTC of the day after its
date, or the integer it writes. -/
def endBound (tok : List Char) : Option Int :=
  match civilDate tok with
  | some (y, m, d) =>
    some (midnightUTC (nextDay y m d).1 (nextDay y m d).2.1 (nextDay y m d).2.2)
  | none => intToken tok

/-- A token that writes neither a date nor a base-10 `int64`. -/
def badToken (tok : List Char) : Prop :=
  civilDate tok = none ∧ intToken tok = none

instance (tok : List Char) : Decidable (badToken tok) := by
  unfold badToken; infer_instance

/-- The response to a query of the window `[start, end)`: the body of
`getPings`, with status 400 when it flags an error. -/
def queryWindow (ds : DataStore) (w : ResponseWriter) (device_id : String)
    (start end_ : Int) : ResponseWriter × DataStore :=
  ((if (getPings ds device_id start end_).1.2 then w.WriteHeader StatusBadRequest else w).Write
      (getPings ds device_id start end_).1.1,
   (getPings ds device_id start end_).2)

/-- The pings of a list inside the window `[start, end)`, in order. -/
def inWindow (pings : List Int) (start end_ : Int) : List Int :=
  pings.filter (fun t => decide (start ≤ t ∧ t < end_))

/-- Device ids are unique in the collection (the unique index on
`deviceid`). -/
def UniqueIds (docs : List Device) : Prop :=
  (docs.map (fun d => d.DeviceId)).Nodup

instance (docs : List Device) : Decidable (UniqueIds docs) := by
  unfold UniqueIds; infer_instance

/-- No document holds a ping twice. -/
def NoDupPings (docs : List Device) : Prop :=
  ∀ d ∈ docs, d.Pings.Nodup

instance (docs : List Device) : Decidable (NoDupPings docs) := by
  unfold NoDupPings; infer_instance

/-- The collections that the handlers can produce from the empty collection:
`postPing` does an upsert, `clearData` empties the collection. -/
inductive Reachable : List Device → Prop where
  | empty : Reachable []
  | clear (docs : List Device) : Reachable docs → Reachable []
  | upsert (docs : List Device) (device_id : String) (unix : Int) :
      Reachable docs → Reachable (addToSet device_id unix docs)

/-- Day count that `Date` computes from the absolute zero year. -/
def absDays (year month day : Int) : Int :=
  146097 * ((year + 292277022399) / 400) + 36524 * ((year + 292277022399) % 400 / 100)
    + 1461 * ((year + 292277022399) % 100 / 4) + 365 * ((year + 292277022399) % 4)
    + daysBefore (month - 1) + (if leapYear year ∧ month ≥ 3 then 1 else 0) + (day - 1)

/-- Month and day of month that `absDate` derives from the day of the year. -/
def monthDayOf (leap : Bool) (yday : Int) : Int × Int :=
  if leap ∧ yday = 31 + 29 - 1 then (2, 29)
  else
    let day := if leap ∧ yday > 31 + 29 - 1 then yday - 1 else yday
    let month := day.tdiv 31
    let end_ := daysBefore (month + 1)
    let mb : Int × Int :=
      if day ≥ end_ then (month + 1, end_) else (month, daysBefore month)
    (mb.1 + 1, day - mb.2 + 1)

/-! ## Lemmas on getPingsIn -/

theorem Slice.elems_append (s : Slice) (x : Int) :
    (s.append x).elems = s.elems ++ [x] := by
  cases s <;> rfl

theorem Slice.append_ne_none (s : Slice) (x : Int) : s.append x ≠ none := by
  cases s <;> simp [Slice.append]

theorem getPingsInLoop_elems (start end_ : Int) (pings : List Int) (acc : Slice) :
    (getPingsInLoop start end_ pings acc).elems
      = acc.elems ++ pings.filter (fun t => decide (start ≤ t ∧ t < end_)) := by
  induction pings generalizing acc with
  | nil => simp [getPingsInLoop]
  | cons p rest ih =>
    by_cases h : p ≥ start ∧ p < end_
    · have h2 : decide (start ≤ p ∧ p < end_) = true := decide_eq_true h
      rw [getPingsInLoop, if_pos h, ih, Slice.elems_append, List.filter_cons, if_pos h2,
        List.append_assoc]
      rfl
    · have h2 : ¬ (decide (start ≤ p ∧ p < end_) = true) := by
        rw [decide_eq_true_eq]; exact h
      rw [getPingsInLoop, if_neg h, ih, List.filter_cons, if_neg h2]

theorem getPingsInLoop_some (start end_ : Int) (pings : List Int) (acc : Slice)
    (h : acc ≠ none) : getPingsInLoop start end_ pings acc ≠ none := by
  induction pings generalizing acc with
  | nil => simpa [getPingsInLoop] using h
  | cons p rest ih =>
    unfold getPingsInLoop
    split
    · exact ih _ (Slice.append_ne_none acc p)
    · exact ih _ h

theorem getPingsIn_elems (pings : List Int) (start end_ : Int) :
    (getPingsIn pings start end_).elems
      = pings.filter (fun t => decide (start ≤ t ∧ t < end_)) := by
  rw [getPingsIn, getPingsInLoop_elems]
  rfl

/-- The result is the nil slice exactly when no ping lies in the window. -/
theorem getPingsIn_eq_none_iff (pings : List Int) (start end_ : Int) :
    getPingsIn pings start end_ = none
      ↔ pings.filter (fun t => decide (start ≤ t ∧ t < end_)) = [] := by
  constructor
  · intro h
    have e := getPingsIn_elems pings start end_
    rw [h] at e
    exact e.symm
  · intro h
    induction pings with
    | nil => rfl
    | cons p rest ih =>
      by_cases hp : p ≥ start ∧ p < end_
      · have h2 : decide (start ≤ p ∧ p < end_) = true := decide_eq_true hp
        rw [List.filter_cons, if_pos h2] at h
        exact absurd h (List.cons_ne_nil _ _)
      · have h2 : ¬ (decide (start ≤ p ∧ p < end_) = true) := by
          rw [decide_eq_true_eq]; exact hp
        rw [List.filter_cons, if_neg h2] at h
        rw [getPingsIn, getPingsInLoop, if_neg hp]
        exact ih h

theorem getPingsIn_eq_some (pings : List Int) (start end_ : Int)
    (h : getPingsIn pings start end_ ≠ none) :
    getPingsIn pings start end_
      = some (pings.filter (fun t => decide (start ≤ t ∧ t < end_))) := by
  have e := getPingsIn_elems pings start end_
  cases hg : getPingsIn pings start end_ with
  | none => exact absurd hg h
  | some xs => rw [hg] at e; exact congrArg some e


/-! ## Lemmas on machine integers and package time -/

theorem u64_eq {x : Int} (h0 : 0 ≤ x) (h1 : x < 18446744073709551616) : u64 x = x := by
  unfold u64; omega

theorem i64_eq {x : Int} (h0 : -9223372036854775808 ≤ x) (h1 : x < 9223372036854775808) :
    i64 x = x := by
  unfold i64; omega

theorem i64_add_i64 (a b : Int) : i64 (i64 a + b) = i64 (a + b) := by
  unfold i64; omega

theorem absoluteToInternal_val : absoluteToInternal = -9223371966579724800 := by decide
theorem internalToUnix_val : internalToUnix = -62135596800 := by decide
theorem unixToInternal_val : unixToInternal = 62135596800 := by decide
theorem internalToAbsolute_val : internalToAbsolute = 9223371966579724800 := by decide
theorem secondsPerDay_val : secondsPerDay = 86400 := by decide
theorem secondsPerHour_val : secondsPerHour = 3600 := by decide
theorem secondsPerMinute_val : secondsPerMinute = 60 := by decide
theorem daysPer400Years_val : daysPer400Years = 146097 := by decide
theorem daysPer100Years_val : daysPer100Years = 36524 := by decide
theorem daysPer4Years_val : daysPer4Years = 1461 := by decide

theorem norm_zero_lo (hi base : Int) (hb : 0 < base) : norm hi 0 base = (hi, 0) := by
  have h2 : ¬ (0 : Int) ≥ base := by omega
  simp [norm, h2]

theorem norm_id (hi lo base : Int) (h0 : 0 ≤ lo) (hb : lo < base) :
    norm hi lo base = (hi, lo) := by
  have h1 : ¬ lo < 0 := by omega
  have h2 : ¬ lo ≥ base := by omega
  simp [norm, h1, h2]

theorem isLeap_eq (y : Int) (hy : 0 ≤ y) : isLeap y = leapYear y := by
  unfold isLeap leapYear
  rw [Int.tmod_eq_emod hy (by norm_num), Int.tmod_eq_emod hy (by norm_num),
    Int.tmod_eq_emod hy (by norm_num)]

theorem month_cases (m : Int) (h1 : 1 ≤ m) (h2 : m ≤ 12) :
    m = 1 ∨ m = 2 ∨ m = 3 ∨ m = 4 ∨ m = 5 ∨ m = 6 ∨ m = 7 ∨ m = 8 ∨ m = 9 ∨ m = 10
      ∨ m = 11 ∨ m = 12 := by
  omega

theorem daysBefore_bounds (month : Int) (hm0 : 1 ≤ month) (hm1 : month ≤ 12) :
    0 ≤ daysBefore (month - 1) ∧ daysBefore (month - 1) ≤ 334 := by
  rcases month_cases month hm0 hm1 with h | h | h | h | h | h | h | h | h | h | h | h <;>
    subst h <;> decide

/-- The internal seconds of the time `Date` builds for a midnight. -/
theorem Date_ext (year month day : Int) (hy0 : 0 ≤ year) (hy1 : year ≤ 10000)
    (hm0 : 1 ≤ month) (hm1 : month ≤ 12) (hd0 : 1 ≤ day) (hd1 : day ≤ 32) :
    (Date year month day 0 0 0 0).ext
      = absDays year month day * 86400 - 9223371966579724800 := by
  obtain ⟨hb0, hb1⟩ := daysBefore_bounds month hm0 hm1
  have e1 : month - 1 + 1 - 1 = month - 1 := by omega
  have e2 : month - 1 + 1 = month := by omega
  simp only [Date, norm_id year (month - 1) 12 (by omega) (by omega),
    norm_zero_lo _ 1000000000 (by norm_num), norm_zero_lo _ 60 (by norm_num),
    norm_zero_lo _ 24 (by norm_num), isLeap_eq year hy0, absDays, e1, e2]
  generalize daysBefore (month - 1) = db at *
  simp only [unixTime, absoluteZeroYear, daysPer400Years_val, daysPer100Years_val,
    daysPer4Years_val, secondsPerDay_val, secondsPerHour_val, secondsPerMinute_val,
    absoluteToInternal_val, internalToUnix_val, unixToInternal_val]
  norm_num
  simp (disch := omega) only [u64_eq, i64_eq]
  simp only [i64_add_i64]
  split_ifs
  · rw [i64_eq (by omega) (by omega)]; omega
  · rw [i64_eq (by omega) (by omega)]; omega

theorem absDays_bounds (year month day : Int) (hy0 : 0 ≤ year) (hy1 : year ≤ 10000)
    (hm0 : 1 ≤ month) (hm1 : month ≤ 12) (hd0 : 1 ≤ day) (hd1 : day ≤ 32) :
    106751000000000 ≤ absDays year month day ∧ absDays year month day ≤ 106756000000000 := by
  obtain ⟨hb0, hb1⟩ := daysBefore_bounds month hm0 hm1
  unfold absDays
  generalize daysBefore (month - 1) = db at *
  split_ifs <;> omega

theorem Date_Unix (year month day : Int) (hy0 : 0 ≤ year) (hy1 : year ≤ 10000)
    (hm0 : 1 ≤ month) (hm1 : month ≤ 12) (hd0 : 1 ≤ day) (hd1 : day ≤ 32) :
    (Date year month day 0 0 0 0).Unix
      = (absDays year month day - 106751991073094) * 86400 := by
  have hb := absDays_bounds year month day hy0 hy1 hm0 hm1 hd0 hd1
  rw [Time.Unix, Date_ext year month day hy0 hy1 hm0 hm1 hd0 hd1, internalToUnix_val,
    i64_eq (by omega) (by omega)]
  omega

theorem Date_abs (year month day : Int) (hy0 : 0 ≤ year) (hy1 : year ≤ 10000)
    (hm0 : 1 ≤ month) (hm1 : month ≤ 12) (hd0 : 1 ≤ day) (hd1 : day ≤ 32) :
    (Date year month day 0 0 0 0).abs = absDays year month day * 86400 := by
  have hb := absDays_bounds year month day hy0 hy1 hm0 hm1 hd0 hd1
  rw [Time.abs, Date_Unix year month day hy0 hy1 hm0 hm1 hd0 hd1, unixToInternal_val,
    internalToAbsolute_val]
  norm_num
  unfold u64 i64
  omega

theorem cycle_inverse (a b c e yd D : Int)
    (hb0 : 0 ≤ b) (hb1 : b ≤ 3) (hc0 : 0 ≤ c) (hc1 : c ≤ 24)
    (he0 : 0 ≤ e) (he1 : e ≤ 3) (hy0 : 0 ≤ yd) (hy1 : yd ≤ 365)
    (hleap : yd = 365 → e = 3 ∧ (c ≠ 24 ∨ b = 3))
    (hD : D = 146097 * a + 36524 * b + 1461 * c + 365 * e + yd) :
    D / 146097 = a
    ∧ (D - 146097 * a) / 36524 - (D - 146097 * a) / 36524 / 4 = b
    ∧ (D - 146097 * a - 36524 * b) / 1461 = c
    ∧ (D - 146097 * a - 36524 * b - 1461 * c) / 365
        - (D - 146097 * a - 36524 * b - 1461 * c) / 365 / 4 = e := by
  subst hD
  have h1 : (146097 * a + 36524 * b + 1461 * c + 365 * e + yd) / 146097 = a := by omega
  have h2 : (146097 * a + 36524 * b + 1461 * c + 365 * e + yd - 146097 * a) / 36524
      = if 1461 * c + 365 * e + yd = 36524 then b + 1 else b := by
    split_ifs with h <;> omega
  have h3 : (146097 * a + 36524 * b + 1461 * c + 365 * e + yd - 146097 * a - 36524 * b) / 1461
      = c := by
    omega
  have h4 : (146097 * a + 36524 * b + 1461 * c + 365 * e + yd - 146097 * a - 36524 * b
      - 1461 * c) / 365 = if yd = 365 then e + 1 else e := by
    split_ifs with h <;> omega
  refine ⟨h1, ?_, h3, ?_⟩
  · rw [h2]; split_ifs with h <;> omega
  · rw [h4]; split_ifs with h <;> omega

theorem absDate_cycles (a b c e yd D : Int) (ha0 : 0 ≤ a) (ha1 : a ≤ 1000000000)
    (hb0 : 0 ≤ b) (hb1 : b ≤ 3) (hc0 : 0 ≤ c) (hc1 : c ≤ 24)
    (he0 : 0 ≤ e) (he1 : e ≤ 3) (hy0 : 0 ≤ yd) (hy1 : yd ≤ 365)
    (hleap : yd = 365 → e = 3 ∧ (c ≠ 24 ∨ b = 3))
    (hD : D = 146097 * a + 36524 * b + 1461 * c + 365 * e + yd) :
    absDate (D * 86400)
      = ((400 * a + 100 * b + 4 * c + e) + absoluteZeroYear,
          monthDayOf (isLeap ((400 * a + 100 * b + 4 * c + e) + absoluteZeroYear)) yd) := by
  obtain ⟨h1, h2, h3, h4⟩ := cycle_inverse a b c e yd D hb0 hb1 hc0 hc1 he0 he1 hy0 hy1 hleap hD
  have hdiv : D * 86400 / 86400 = D := by omega
  simp only [absDate, secondsPerDay_val, daysPer400Years_val, daysPer100Years_val,
    daysPer4Years_val, hdiv, h1]
  rw [u64_eq (x := 146097 * a) (by omega) (by omega),
    u64_eq (x := D - 146097 * a) (by omega) (by omega)]
  simp (disch := omega) only [u64_eq, h2, h3, h4]
  rw [i64_eq (x := 400 * a + 100 * b + 4 * c + e) (by omega) (by omega),
    i64_eq (by simp only [absoluteZeroYear]; omega) (by simp only [absoluteZeroYear]; omega)]
  have hyd : D - 146097 * a - 36524 * b - 1461 * c - 365 * e = yd := by omega
  rw [hyd]
  generalize isLeap (400 * a + 100 * b + 4 * c + e + absoluteZeroYear) = L
  generalize 400 * a + 100 * b + 4 * c + e + absoluteZeroYear = yr
  unfold monthDayOf
  by_cases hL : L = true ∧ yd = 31 + 29 - 1
  · rw [if_pos hL, if_pos hL]
  · rw [if_neg hL, if_neg hL]

/-- The month and day table of `absDate`, checked on every day of both kinds of year. -/
theorem monthDayOf_table :
    ∀ leap : Bool, ∀ m : Nat, m < 12 → ∀ d : Nat, d < 31 →
      ((d : Int) + 1 ≤ monthLength (if leap then 4 else 1) ((m : Int) + 1)) →
      monthDayOf leap (daysBefore m + (if leap ∧ (m : Int) + 1 ≥ 3 then 1 else 0) + d)
        = ((m : Int) + 1, (d : Int) + 1) := by
  decide

theorem monthLength_leap (y m : Int) :
    monthLength y m = monthLength (if leapYear y then 4 else 1) m := by
  have h1 : leapYear 1 = false := by decide
  have h4 : leapYear 4 = true := by decide
  cases h : leapYear y <;> simp [monthLength, h, h1, h4]

theorem monthLength_le (y m : Int) : 28 ≤ monthLength y m ∧ monthLength y m ≤ 31 := by
  unfold monthLength
  split_ifs <;> omega

theorem monthDayOf_valid (y m d : Int) (hm0 : 1 ≤ m) (hm1 : m ≤ 12) (hd0 : 1 ≤ d)
    (hd1 : d ≤ monthLength y m) :
    monthDayOf (leapYear y)
        (daysBefore (m - 1) + (if leapYear y ∧ m ≥ 3 then 1 else 0) + (d - 1)) = (m, d) := by
  have hd31 := (monthLength_le y m).2
  have hm : (((m - 1).toNat : Nat) : Int) = m - 1 := by omega
  have hd : (((d - 1).toNat : Nat) : Int) = d - 1 := by omega
  have key := monthDayOf_table (leapYear y) (m - 1).toNat (by omega) (d - 1).toNat (by omega)
  rw [hm, hd, ← monthLength_leap] at key
  have e1 : m - 1 + 1 = m := by omega
  have e2 : d - 1 + 1 = d := by omega
  rw [e1, e2] at key
  exact key hd1

theorem leapYear_iff (y : Int) :
    leapYear y = true ↔ (y + 292277022399) % 4 = 3
      ∧ ((y + 292277022399) % 100 / 4 ≠ 24 ∨ (y + 292277022399) % 400 / 100 = 3) := by
  unfold leapYear
  rw [decide_eq_true_iff]
  omega

theorem yday_bounds (y m d : Int) (hm0 : 1 ≤ m) (hm1 : m ≤ 12) (hd0 : 1 ≤ d)
    (hd1 : d ≤ monthLength y m) :
    0 ≤ daysBefore (m - 1) + (if leapYear y ∧ m ≥ 3 then 1 else 0) + (d - 1)
    ∧ daysBefore (m - 1) + (if leapYear y ∧ m ≥ 3 then 1 else 0) + (d - 1) ≤ 365
    ∧ (daysBefore (m - 1) + (if leapYear y ∧ m ≥ 3 then 1 else 0) + (d - 1) = 365
        → leapYear y = true) := by
  rw [monthLength_leap] at hd1
  cases hl : leapYear y <;> rw [hl] at hd1 <;>
  rcases month_cases m hm0 hm1 with h | h | h | h | h | h | h | h | h | h | h | h <;>
    subst h <;> simp [daysBefore, monthLength, leapYear] at hd1 ⊢ <;> omega

/-- The function `absDate` inverts the day count of `Date` on every valid date. -/
theorem absDate_absDays (y m d : Int) (hy0 : 0 ≤ y) (hy1 : y ≤ 10000)
    (hm0 : 1 ≤ m) (hm1 : m ≤ 12) (hd0 : 1 ≤ d) (hd1 : d ≤ monthLength y m) :
    absDate (absDays y m d * 86400) = (y, m, d) := by
  obtain ⟨hyd0, hyd1, hyd2⟩ := yday_bounds y m d hm0 hm1 hd0 hd1
  have hl := leapYear_iff y
  have key := absDate_cycles ((y + 292277022399) / 400) ((y + 292277022399) % 400 / 100)
    ((y + 292277022399) % 100 / 4) ((y + 292277022399) % 4)
    (daysBefore (m - 1) + (if leapYear y ∧ m ≥ 3 then 1 else 0) + (d - 1))
    (absDays y m d) (by omega) (by omega) (by omega) (by omega) (by omega) (by omega)
    (by omega) (by omega) hyd0 hyd1 (fun h => hl.1 (hyd2 h))
    (by unfold absDays; omega)
  have hyr : 400 * ((y + 292277022399) / 400) + 100 * ((y + 292277022399) % 400 / 100)
      + 4 * ((y + 292277022399) % 100 / 4) + (y + 292277022399) % 4 + absoluteZeroYear = y := by
    simp only [absoluteZeroYear]
    omega
  rw [key, hyr, isLeap_eq y hy0, monthDayOf_valid y m d hm0 hm1 hd0 hd1]

theorem absClock_midnight (D : Int) : absClock (D * 86400) = (0, 0, 0) := by
  have h : D * 86400 % 86400 = 0 := by omega
  simp [absClock, secondsPerDay_val, h]

theorem daysIn_eq (m y : Int) (hy : 0 ≤ y) (hm0 : 1 ≤ m) (hm1 : m ≤ 12) :
    daysIn m y = monthLength y m := by
  unfold daysIn
  rw [isLeap_eq y hy, monthLength_leap]
  cases hl : leapYear y <;>
  rcases month_cases m hm0 hm1 with h | h | h | h | h | h | h | h | h | h | h | h <;>
    subst h <;> decide

theorem daysBeforeMonth_eq (y m : Int) (hm0 : 1 ≤ m) (hm1 : m ≤ 13) :
    daysBeforeMonth y m = daysBefore (m - 1) + (if leapYear y ∧ m ≥ 3 then 1 else 0) := by
  have hc : m = 13 ∨ (1 ≤ m ∧ m ≤ 12) := by omega
  rcases hc with h | ⟨h0, h1⟩
  · subst h
    cases hl : leapYear y <;> simp [daysBeforeMonth, List.range_succ, monthLength, hl, daysBefore]
  · cases hl : leapYear y <;>
    rcases month_cases m h0 h1 with h | h | h | h | h | h | h | h | h | h | h | h <;>
      subst h <;> simp [daysBeforeMonth, List.range_succ, monthLength, hl, daysBefore]

/-- The day count of `Date` and the calendar count of days from 1970-01-01 agree. -/
theorem absDays_eq (y m d : Int) (hm0 : 1 ≤ m) (hm1 : m ≤ 12) :
    absDays y m d - 106751991073094 = daysFromEpoch y m d := by
  unfold daysFromEpoch
  rw [daysBeforeMonth_eq y m hm0 (by omega)]
  unfold absDays leapsBefore
  generalize daysBefore (m - 1) = db
  split_ifs <;> omega

theorem Date_Unix_midnight (y m d : Int) (hy0 : 0 ≤ y) (hy1 : y ≤ 10000)
    (hm0 : 1 ≤ m) (hm1 : m ≤ 12) (hd0 : 1 ≤ d) (hd1 : d ≤ 32) :
    (Date y m d 0 0 0 0).Unix = midnightUTC y m d := by
  rw [Date_Unix y m d hy0 hy1 hm0 hm1 hd0 hd1, absDays_eq y m d hm0 hm1, midnightUTC]

theorem AddDate_one_day (y m d : Int) (hy0 : 0 ≤ y) (hy1 : y ≤ 10000)
    (hm0 : 1 ≤ m) (hm1 : m ≤ 12) (hd0 : 1 ≤ d) (hd1 : d ≤ monthLength y m) :
    (Date y m d 0 0 0 0).AddDate 0 0 1 = Date y m (d + 1) 0 0 0 0 := by
  have hd31 := (monthLength_le y m).2
  rw [Time.AddDate, Date_abs y m d hy0 hy1 hm0 hm1 hd0 (by omega),
    absDate_absDays y m d hy0 hy1 hm0 hm1 hd0 hd1, absClock_midnight]
  simp

theorem leapsBefore_succ (y : Int) :
    leapsBefore (y + 1) = leapsBefore y + (if leapYear y then 1 else 0) := by
  unfold leapsBefore leapYear
  split_ifs with h
  · rw [decide_eq_true_iff] at h; omega
  · rw [decide_eq_true_iff] at h; omega

/-- The day after a valid date is one day later in the count from the epoch. -/
theorem daysFromEpoch_nextDay (y m d : Int) (hm0 : 1 ≤ m) (hm1 : m ≤ 12)
    (hd1 : d ≤ monthLength y m) :
    daysFromEpoch (nextDay y m d).1 (nextDay y m d).2.1 (nextDay y m d).2.2
      = daysFromEpoch y m d + 1 := by
  unfold nextDay
  by_cases h1 : d < monthLength y m
  · rw [if_pos h1]
    simp only [daysFromEpoch]
    omega
  · rw [if_neg h1]
    have hd : d = monthLength y m := by omega
    by_cases h2 : m < 12
    · rw [if_pos h2]
      simp only [daysFromEpoch]
      rw [daysBeforeMonth_eq y (m + 1) (by omega) (by omega),
        daysBeforeMonth_eq y m hm0 (by omega), hd, monthLength_leap]
      cases hl : leapYear y <;>
      rcases month_cases m hm0 hm1 with h | h | h | h | h | h | h | h | h | h | h | h <;>
        subst h <;> simp [daysBefore, monthLength, leapYear] <;> omega
    · rw [if_neg h2]
      have hm : m = 12 := by omega
      subst hm
      simp only [daysFromEpoch]
      rw [daysBeforeMonth_eq (y + 1) 1 (by omega) (by omega),
        daysBeforeMonth_eq y 12 (by omega) (by omega), hd, leapsBefore_succ]
      have e : monthLength y 12 = 31 := by simp [monthLength]
      rw [e]
      cases hl : leapYear y <;> simp [daysBefore] <;> omega

/-! ## Lemmas on Parse -/

theorem digitVal_bounds (c : Char) (h : decDigit c) : 0 ≤ digitVal c ∧ digitVal c ≤ 9 := by
  unfold decDigit at h
  obtain ⟨h0, h9⟩ := h
  have h0n : ('0').toNat ≤ c.toNat := h0
  have h9n : c.toNat ≤ ('9').toNat := h9
  have e0 : ('0').toNat = 48 := by decide
  have e9 : ('9').toNat = 57 := by decide
  unfold digitVal
  omega

theorem isDigit_zero (c : Char) (r : List Char) : isDigit (c :: r) 0 = decide (decDigit c) := by
  simp [isDigit, decDigit]

theorem isDigit_one (c0 c1 : Char) (r : List Char) :
    isDigit (c0 :: c1 :: r) 1 = decide (decDigit c1) := by
  simp [isDigit, decDigit]

theorem getnum_nil : getnum [] = none := by
  simp [getnum, isDigit]

theorem getnum_one (c : Char) : getnum [c] = none := by
  simp [getnum, isDigit]

theorem getnum_two (c0 c1 : Char) (r : List Char) :
    getnum (c0 :: c1 :: r)
      = if decDigit c0 ∧ decDigit c1 then some (digitVal c0 * 10 + digitVal c1, r) else none := by
  unfold getnum
  rw [isDigit_zero, isDigit_one]
  by_cases h0 : decDigit c0 <;> by_cases h1 : decDigit c1 <;> simp [h0, h1]

theorem atoi_four (a b c d : Char) :
    atoi [a, b, c, d]
      = if decDigit a ∧ decDigit b ∧ decDigit c ∧ decDigit d then
          some (1000 * digitVal a + 100 * digitVal b + 10 * digitVal c + digitVal d)
        else none := by
  unfold atoi
  simp only [List.foldl]
  by_cases ha : decDigit a <;> by_cases hb : decDigit b <;> by_cases hc : decDigit c <;>
    by_cases hd : decDigit d <;>
    simp [ha, hb, hc, hd, show ∀ x : Char, ('0' ≤ x ∧ x ≤ '9') = decDigit x from fun _ => rfl]
  ring

theorem Parse_ten (y1 y2 y3 y4 s1 m1 m2 s2 d1 d2 : Char) :
    Parse [y1, y2, y3, y4, s1, m1, m2, s2, d1, d2]
      = (civilDate [y1, y2, y3, y4, s1, m1, m2, s2, d1, d2]).map
          (fun ymd => Date ymd.1 ymd.2.1 ymd.2.2 0 0 0 0) := by
  unfold Parse civilDate
  simp only [List.length_cons, List.length_nil, isDigit_zero, List.take, List.drop, atoi_four]
  by_cases hy1 : decDigit y1 <;> by_cases hy2 : decDigit y2 <;> by_cases hy3 : decDigit y3 <;>
    by_cases hy4 : decDigit y4 <;> simp [hy1, hy2, hy3, hy4]
  by_cases hs1 : s1 = '-' <;> simp [hs1, getnum_two]
  by_cases hm1 : decDigit m1 <;> by_cases hm2 : decDigit m2 <;> simp [hm1, hm2]
  by_cases hs2 : s2 = '-' <;> simp [hs2]
  have b1 := digitVal_bounds y1 hy1
  have b2 := digitVal_bounds y2 hy2
  have b3 := digitVal_bounds y3 hy3
  have b4 := digitVal_bounds y4 hy4
  have em : digitVal m1 * 10 + digitVal m2 = 10 * digitVal m1 + digitVal m2 := by ring
  rw [em, getnum_two]
  have ed : digitVal d1 * 10 + digitVal d2 = 10 * digitVal d1 + digitVal d2 := by ring
  rw [ed]
  generalize 10 * digitVal m1 + digitVal m2 = m
  generalize 10 * digitVal d1 + digitVal d2 = d
  by_cases hm : m ≤ 0 ∨ 12 < m
  · rw [if_pos hm, if_neg (by omega)]
  · rw [if_neg hm]
    by_cases hd : decDigit d1 ∧ decDigit d2
    · rw [if_pos hd]
      simp only [if_true]
      rw [daysIn_eq m _ (by omega) (by omega) (by omega)]
      by_cases hday : d < 1 ∨ monthLength
          (1000 * digitVal y1 + 100 * digitVal y2 + 10 * digitVal y3 + digitVal y4) m < d
      · rw [if_pos hday, if_neg (by omega)]
      · rw [if_neg hday, if_pos ⟨hd, by omega⟩]
    · rw [if_neg hd, if_neg (fun h => hd h.1)]

theorem Parse_tail_none (y1 y2 y3 y4 s1 m1 m2 s2 : Char) (tail : List Char)
    (h : ∀ p, getnum tail = some p → p.2 ≠ []) :
    Parse (y1 :: y2 :: y3 :: y4 :: s1 :: m1 :: m2 :: s2 :: tail) = none := by
  unfold Parse
  simp only [List.length_cons, isDigit_zero, List.take, List.drop, atoi_four]
  by_cases hy1 : decDigit y1 <;> by_cases hy2 : decDigit y2 <;> by_cases hy3 : decDigit y3 <;>
    by_cases hy4 : decDigit y4 <;> simp [hy1, hy2, hy3, hy4]
  by_cases hs1 : s1 = '-' <;> simp [hs1, getnum_two]
  by_cases hm1 : decDigit m1 <;> by_cases hm2 : decDigit m2 <;> simp [hm1, hm2]
  by_cases hs2 : s2 = '-' <;> simp [hs2]
  intro _ _
  cases hg : getnum tail with
  | none => rfl
  | some p =>
    obtain ⟨day, value⟩ := p
    have := h _ hg
    simp at this
    simp [this]

/-- The function `Parse` accepts exactly the tokens that write a calendar date, and
returns the time `Date` builds for that date. -/
theorem Parse_eq (s : List Char) :
    Parse s = (civilDate s).map (fun ymd => Date ymd.1 ymd.2.1 ymd.2.2 0 0 0 0) := by
  rcases s with _ | ⟨y1, _ | ⟨y2, _ | ⟨y3, _ | ⟨y4, _ | ⟨s1, _ | ⟨m1, _ | ⟨m2, _ | ⟨s2, _ |
    ⟨d1, _ | ⟨d2, _ | ⟨x, rest⟩⟩⟩⟩⟩⟩⟩⟩⟩⟩⟩
  case cons.cons.cons.cons.cons.cons.cons.cons.cons.cons.nil => exact Parse_ten _ _ _ _ _ _ _ _ _ _
  case cons.cons.cons.cons.cons.cons.cons.cons.nil =>
    rw [Parse_tail_none _ _ _ _ _ _ _ _ _ (by simp [getnum_nil])]; rfl
  case cons.cons.cons.cons.cons.cons.cons.cons.cons.nil =>
    rw [Parse_tail_none _ _ _ _ _ _ _ _ _ (by simp [getnum_one])]; rfl
  case cons.cons.cons.cons.cons.cons.cons.cons.cons.cons.cons =>
    rw [Parse_tail_none _ _ _ _ _ _ _ _ _ (by
      intro p hp
      rw [getnum_two] at hp
      split_ifs at hp
      cases hp
      simp)]
    rfl
  all_goals
    simp only [Parse, civilDate, List.length_cons, List.length_nil, List.take, List.drop,
      atoi_four, getnum_two, getnum_nil, getnum_one, Option.map]
    repeat (any_goals split)
    all_goals first | rfl | simp_all

/-! ## Lemmas on ParseInt -/

theorem digitsFrom_ge (n : Int) (s : List Char) (h : ∀ x ∈ s, decDigit x) (hn : 0 ≤ n) :
    n ≤ digitsFrom n s := by
  induction s generalizing n with
  | nil => exact le_refl _
  | cons c rest ih =>
    have hc := digitVal_bounds c (h c (List.mem_cons_self _ _))
    have := ih (n * 10 + digitVal c) (fun x hx => h x (List.mem_cons_of_mem _ hx)) (by omega)
    simp only [digitsFrom, List.foldl] at this ⊢
    omega

theorem ParseUintLoop_digits (s : List Char) (n : Int) (h : ∀ x ∈ s, decDigit x)
    (hn0 : 0 ≤ n) (hn1 : n ≤ maxUint64) :
    ParseUintLoop s n
      = if digitsFrom n s ≤ maxUint64 then (digitsFrom n s, none)
        else (maxUint64, some .rangeErr) := by
  induction s generalizing n with
  | nil => simp [ParseUintLoop, digitsFrom, hn1]
  | cons c rest ih =>
    have hcd : decDigit c := h c (List.mem_cons_self _ _)
    have hc := digitVal_bounds c hcd
    have hrest : ∀ x ∈ rest, decDigit x := fun x hx => h x (List.mem_cons_of_mem _ hx)
    have hge := digitsFrom_ge (n * 10 + digitVal c) rest hrest (by omega)
    have hstep : digitsFrom n (c :: rest) = digitsFrom (n * 10 + digitVal c) rest := rfl
    have hcd2 : '0' ≤ c ∧ c ≤ '9' := hcd
    have hv : ((c.toNat : Int) - (('0').toNat : Int)) = digitVal c := rfl
    unfold ParseUintLoop
    simp only [if_pos hcd2, hv, hstep]
    simp only [maxUint64] at hn1 hge ⊢
    by_cases hcut : n ≥ 18446744073709551615 / 10 + 1
    · rw [if_pos hcut, if_neg (by omega)]
    · rw [if_neg hcut]
      have e10 : u64 (n * 10) = n * 10 := u64_eq (by omega) (by omega)
      rw [e10]
      by_cases hov : n * 10 + digitVal c ≤ 18446744073709551615
      · have e1 : u64 (n * 10 + digitVal c) = n * 10 + digitVal c := u64_eq (by omega) (by omega)
        rw [e1, if_neg (by omega)]
        have := ih (n * 10 + digitVal c) hrest (by omega) (by simp only [maxUint64]; omega)
        simp only [maxUint64] at this
        exact this
      · have e1 : u64 (n * 10 + digitVal c) < n * 10 := by unfold u64; omega
        rw [if_pos (Or.inl e1), if_neg (by omega)]

theorem ParseUintLoop_nondigit (s : List Char) (n : Int) (h : ¬ ∀ x ∈ s, decDigit x) :
    (ParseUintLoop s n).2 = some .syntaxErr
      ∨ ParseUintLoop s n = (maxUint64, some .rangeErr) := by
  induction s generalizing n with
  | nil => simp at h
  | cons c rest ih =>
    unfold ParseUintLoop
    by_cases hcd : '0' ≤ c ∧ c ≤ '9'
    · have hr : ¬ ∀ x ∈ rest, decDigit x := by
        intro hr
        apply h
        intro x hx
        rcases List.mem_cons.1 hx with e | e
        · rw [e]; exact hcd
        · exact hr x e
      simp only [if_pos hcd]
      split
      · exact Or.inr rfl
      · split
        · exact Or.inr rfl
        · exact ih _ hr
    · rw [if_neg hcd]
      exact Or.inl rfl

theorem ParseInt_range_error (c : Char) (t s1 : List Char)
    (hs1 : s1 = if c = '+' then t else if c = '-' then t else c :: t)
    (hr : ParseUint s1 = (maxUint64, some .rangeErr)) :
    (ParseInt (c :: t)).toOption = none := by
  unfold ParseInt
  simp only [← hs1, hr, maxUint64]
  by_cases hneg : c = '-' <;> simp [hneg, Except.toOption]

theorem ParseInt_syntax_error (c : Char) (t s1 : List Char)
    (hs1 : s1 = if c = '+' then t else if c = '-' then t else c :: t)
    (hr : (ParseUint s1).2 = some .syntaxErr) :
    (ParseInt (c :: t)).toOption = none := by
  unfold ParseInt
  simp only [← hs1, hr]
  rfl

theorem ParseInt_value (c : Char) (t s1 : List Char) (v : Int)
    (hs1 : s1 = if c = '+' then t else if c = '-' then t else c :: t)
    (hr : ParseUint s1 = (v, none)) (hv0 : 0 ≤ v) (hv1 : v ≤ maxUint64) :
    (ParseInt (c :: t)).toOption
      = if -9223372036854775808 ≤ (if c = '-' then -v else v)
            ∧ (if c = '-' then -v else v) ≤ 9223372036854775807 then
          some (if c = '-' then -v else v)
        else none := by
  unfold ParseInt
  simp only [← hs1, hr, maxUint64] at hv1 ⊢
  by_cases hneg : c = '-'
  · simp only [hneg, decide_True, if_true, reduceCtorEq, if_false, not_true_eq_false,
      false_and, true_and]
    by_cases hbig : v > 9223372036854775808
    · rw [if_pos hbig, if_neg (by omega)]; rfl
    · rw [if_neg hbig, if_pos (by omega)]
      have e : i64 (-i64 v) = -v := by unfold i64; omega
      rw [e]; rfl
  · simp only [hneg, decide_False, if_false, reduceCtorEq, not_false_eq_true, true_and,
      false_and, Bool.false_eq_true]
    by_cases hbig : v ≥ 9223372036854775808
    · rw [if_pos hbig, if_neg (by omega)]; rfl
    · rw [if_neg hbig, if_pos (by omega)]
      have e : i64 v = v := i64_eq (by omega) (by omega)
      rw [e]; rfl

/-- The function `ParseInt` reads exactly the tokens that write an `int64` in base
10, and returns the integer written. -/
theorem ParseInt_eq (s : List Char) : (ParseInt s).toOption = intToken s := by
  rcases s with _ | ⟨c, t⟩
  · rfl
  · have hbody : (if c = '+' ∨ c = '-' then t else c :: t)
        = if c = '+' then t else if c = '-' then t else c :: t := by
      by_cases h1 : c = '+' <;> by_cases h2 : c = '-' <;> simp [h1, h2]
    unfold intToken
    simp only [hbody]
    generalize hs1 : (if c = '+' then t else if c = '-' then t else c :: t) = s1
    by_cases hnil : s1 = []
    · rw [if_neg (fun h => h.1 hnil)]
      apply ParseInt_syntax_error c t s1 hs1.symm
      rw [hnil]; rfl
    · have hlen : ¬ s1.length < 1 := by
        cases s1 with
        | nil => exact absurd rfl hnil
        | cons _ _ => simp
      have hPU : ParseUint s1 = ParseUintLoop s1 0 := by
        unfold ParseUint; rw [if_neg hlen]
      by_cases hdig : ∀ x ∈ s1, decDigit x
      · rw [if_pos ⟨hnil, hdig⟩]
        have hloop := ParseUintLoop_digits s1 0 hdig (le_refl _) (by decide)
        have hge := digitsFrom_ge 0 s1 hdig (le_refl _)
        by_cases hmax : digitsFrom 0 s1 ≤ maxUint64
        · rw [if_pos hmax] at hloop
          rw [ParseInt_value c t s1 _ hs1.symm (hPU.trans hloop) hge hmax]
        · rw [if_neg hmax] at hloop
          rw [ParseInt_range_error c t s1 hs1.symm (hPU.trans hloop)]
          simp only [maxUint64] at hmax
          rw [if_neg]
          split <;> omega
      · rw [if_neg (fun h => hdig h.2)]
        rcases ParseUintLoop_nondigit s1 0 hdig with h | h
        · exact ParseInt_syntax_error c t s1 hs1.symm (by rw [hPU]; exact h)
        · exact ParseInt_range_error c t s1 hs1.symm (hPU.trans h)

/-! ## Lemmas on the map built by getPings -/

theorem get_setEntry_same (k : String) (v : Slice) (es : List (String × Slice)) :
    GoMap.get (some (setEntry k v es)) k = some v := by
  induction es with
  | nil => simp [GoMap.get, setEntry]
  | cons e es ih =>
    by_cases h : e.1 = k
    · simp [GoMap.get, setEntry, h]
    · simp only [GoMap.get, setEntry, if_neg h] at ih ⊢
      rw [List.find?_cons_of_neg _ (by simpa using h)]
      exact ih

theorem get_setEntry_other (k k2 : String) (v : Slice) (es : List (String × Slice))
    (hne : k2 ≠ k) :
    GoMap.get (some (setEntry k v es)) k2 = GoMap.get (some es) k2 := by
  induction es with
  | nil =>
    simp only [GoMap.get, setEntry]
    rw [List.find?_cons_of_neg _ (by simpa using hne.symm)]
  | cons e es ih =>
    by_cases h : e.1 = k
    · have h2 : ¬ e.1 = k2 := by rw [h]; exact hne.symm
      simp only [GoMap.get, setEntry, if_pos h]
      rw [List.find?_cons_of_neg _ (by simpa using hne.symm),
        List.find?_cons_of_neg _ (by simpa using h2)]
    · simp only [GoMap.get, setEntry, if_neg h] at ih ⊢
      by_cases h2 : e.1 = k2
      · rw [List.find?_cons_of_pos _ (by simpa using h2),
          List.find?_cons_of_pos _ (by simpa using h2)]
      · rw [List.find?_cons_of_neg _ (by simpa using h2),
          List.find?_cons_of_neg _ (by simpa using h2)]
        exact ih

theorem keys_setEntry (k : String) (v : Slice) (es : List (String × Slice)) (x : String) :
    x ∈ (setEntry k v es).map Prod.fst ↔ x = k ∨ x ∈ es.map Prod.fst := by
  induction es with
  | nil => simp [setEntry]
  | cons e es ih =>
    by_cases h : e.1 = k
    · simp only [setEntry, if_pos h, List.map_cons, List.mem_cons]
      rw [h]; tauto
    · simp only [setEntry, if_neg h, List.map_cons, List.mem_cons, ih]
      tauto

theorem nodup_setEntry (k : String) (v : Slice) (es : List (String × Slice))
    (h : (es.map Prod.fst).Nodup) : ((setEntry k v es).map Prod.fst).Nodup := by
  induction es with
  | nil => simp [setEntry]
  | cons e es ih =>
    rw [List.map_cons, List.nodup_cons] at h
    by_cases hk : e.1 = k
    · simp only [setEntry, if_pos hk, List.map_cons, List.nodup_cons]
      rw [← hk]; exact h
    · simp only [setEntry, if_neg hk, List.map_cons, List.nodup_cons]
      refine ⟨?_, ih h.2⟩
      rw [keys_setEntry]
      intro hx
      rcases hx with hx | hx
      · exact hk hx
      · exact h.1 hx

/-- A device has a ping in the window. -/
theorem getPingsIn_ne_none_iff (pings : List Int) (start end_ : Int) :
    getPingsIn pings start end_ ≠ none ↔ ∃ t ∈ pings, start ≤ t ∧ t < end_ := by
  rw [Ne, getPingsIn_eq_none_iff, List.filter_eq_nil_iff]
  simp

theorem getPingsLoop_some (start end_ : Int) (devs : List Device) (acc : List (String × Slice)) :
    ∃ data, getPingsLoop start end_ devs (some acc) = some data := by
  induction devs generalizing acc with
  | nil => exact ⟨acc, rfl⟩
  | cons x rest ih =>
    unfold getPingsLoop
    simp only []
    split
    · exact ih _
    · exact ih _

theorem getPingsLoop_nodup (start end_ : Int) (devs : List Device) (acc : List (String × Slice))
    (h : (acc.map Prod.fst).Nodup) :
    ∀ data, getPingsLoop start end_ devs (some acc) = some data → (data.map Prod.fst).Nodup := by
  induction devs generalizing acc with
  | nil => intro data hd; simp only [getPingsLoop, Option.some.injEq] at hd; rw [← hd]; exact h
  | cons x rest ih =>
    intro data hd
    unfold getPingsLoop at hd
    simp only [] at hd
    split at hd
    · exact ih _ (nodup_setEntry _ _ _ h) data hd
    · exact ih _ h data hd

theorem getPingsLoop_get_absent (start end_ : Int) (devs : List Device)
    (acc : List (String × Slice)) (k : String) (h : ∀ d ∈ devs, d.DeviceId ≠ k) :
    GoMap.get (getPingsLoop start end_ devs (some acc)) k = GoMap.get (some acc) k := by
  induction devs generalizing acc with
  | nil => rfl
  | cons x rest ih =>
    have hx : x.DeviceId ≠ k := h x (List.mem_cons_self _ _)
    have hr : ∀ d ∈ rest, d.DeviceId ≠ k := fun d hd => h d (List.mem_cons_of_mem _ hd)
    unfold getPingsLoop
    simp only []
    split
    · rw [GoMap.set, ih _ hr, get_setEntry_other _ _ _ _ hx.symm]
    · exact ih _ hr

theorem getPingsLoop_get_isSome (start end_ : Int) (devs : List Device)
    (acc : List (String × Slice)) (k : String) :
    (GoMap.get (getPingsLoop start end_ devs (some acc)) k).isSome
      ↔ (GoMap.get (some acc) k).isSome
        ∨ ∃ dev ∈ devs, dev.DeviceId = k ∧ ∃ t ∈ dev.Pings, start ≤ t ∧ t < end_ := by
  induction devs generalizing acc with
  | nil => simp [getPingsLoop]
  | cons x rest ih =>
    unfold getPingsLoop
    simp only []
    split
    · rename_i hx
      rw [GoMap.set, ih]
      rw [getPingsIn_ne_none_iff] at hx
      by_cases hk : x.DeviceId = k
      · subst hk
        rw [get_setEntry_same]
        simp only [Option.isSome_some, true_or, true_iff]
        exact Or.inr ⟨x, List.mem_cons_self _ _, rfl, hx⟩
      · rw [get_setEntry_other _ _ _ _ (Ne.symm hk)]
        simp only [List.mem_cons, exists_eq_or_imp, hk, false_and, false_or]
    · rename_i hx
      rw [ih]
      have hx2 : ¬ ∃ t ∈ x.Pings, start ≤ t ∧ t < end_ := by
        rw [← getPingsIn_ne_none_iff]; exact hx
      simp only [List.mem_cons, exists_eq_or_imp]
      constructor
      · rintro (h | h)
        · exact Or.inl h
        · exact Or.inr (Or.inr h)
      · rintro (h | ⟨_, h⟩ | h)
        · exact Or.inl h
        · exact absurd h hx2
        · exact Or.inr h

theorem getPingsLoop_get_value (start end_ : Int) (devs : List Device)
    (acc : List (String × Slice)) (hu : UniqueIds devs) (dev : Device) (hd : dev ∈ devs)
    (hit : ∃ t ∈ dev.Pings, start ≤ t ∧ t < end_) :
    GoMap.get (getPingsLoop start end_ devs (some acc)) dev.DeviceId
      = some (some (inWindow dev.Pings start end_)) := by
  induction devs generalizing acc with
  | nil => cases hd
  | cons x rest ih =>
    unfold UniqueIds at hu
    rw [List.map_cons, List.nodup_cons] at hu
    rcases List.mem_cons.1 hd with hx | hx
    · subst hx
      have hne : getPingsIn dev.Pings start end_ ≠ none := (getPingsIn_ne_none_iff _ _ _).2 hit
      have hr : ∀ d ∈ rest, d.DeviceId ≠ dev.DeviceId := by
        intro d hdr he
        exact hu.1 (by rw [← he]; exact List.mem_map_of_mem _ hdr)
      unfold getPingsLoop
      simp only []
      rw [if_pos hne, GoMap.set, getPingsLoop_get_absent _ _ _ _ _ hr, get_setEntry_same,
        getPingsIn_eq_some _ _ _ hne]
      rfl
    · unfold getPingsLoop
      simp only []
      split
      · exact ih _ hu.2 hx
      · exact ih _ hu.2 hx

/-! ## Lemmas on getPings -/

theorem getPings_all (ds : DataStore) (start end_ : Int) :
    (getPings ds "all" start end_).1
      = (marshalMap (getPingsLoop start end_ ds.collection (some [])), false) := by
  obtain ⟨data, hdata⟩ := getPingsLoop_some start end_ ds.collection []
  simp [getPings, DataStore.FindAll, hdata]

theorem FindOne_error_iff (ds : DataStore) (device_id : String) :
    (ds.FindOne device_id).1 = .error .notFound
      ↔ ¬ ∃ d ∈ ds.collection, d.DeviceId = device_id := by
  unfold DataStore.FindOne
  cases h : ds.collection.find? (fun d => d.DeviceId = device_id) with
  | none =>
    simp only [true_iff]
    rintro ⟨d, hd, he⟩
    have := List.find?_eq_none.1 h d hd
    simp [he] at this
  | some d =>
    simp only [reduceCtorEq, false_iff, not_not]
    refine ⟨d, List.mem_of_find?_eq_some h, ?_⟩
    simpa using List.find?_some h

theorem getPings_one_found (ds : DataStore) (device_id : String) (start end_ : Int)
    (hne : device_id ≠ "all") (d : Device)
    (h : ds.collection.find? (fun d => d.DeviceId = device_id) = some d) :
    (getPings ds device_id start end_).1
      = (marshalInts (some (inWindow d.Pings start end_)), false) := by
  unfold getPings
  rw [if_neg hne]
  simp only [DataStore.FindOne, h]
  by_cases hp : getPingsIn d.Pings start end_ ≠ none
  · rw [if_pos hp, getPingsIn_eq_some _ _ _ hp]; rfl
  · rw [if_neg hp]
    have hp2 : getPingsIn d.Pings start end_ = none := by simpa using hp
    rw [getPingsIn_eq_none_iff] at hp2
    rw [inWindow, hp2]

theorem getPings_one_missing (ds : DataStore) (device_id : String) (start end_ : Int)
    (hne : device_id ≠ "all")
    (h : ds.collection.find? (fun d => d.DeviceId = device_id) = none) :
    (getPings ds device_id start end_).1 = ("[]", true) := by
  unfold getPings
  rw [if_neg hne]
  simp only [DataStore.FindOne, h]
  decide


/-! ## Lemmas on the upsert -/

theorem addToSet_idem (device_id : String) (unix : Int) (docs : List Device) :
    addToSet device_id unix (addToSet device_id unix docs) = addToSet device_id unix docs := by
  induction docs with
  | nil => simp [addToSet]
  | cons d rest ih =>
    by_cases h : d.DeviceId = device_id
    · by_cases hu : unix ∈ d.Pings
      · simp [addToSet, h, hu]
      · simp [addToSet, h, hu]
    · simp [addToSet, h, ih]

theorem addToSet_absent (device_id : String) (unix : Int) (docs : List Device)
    (h : ∀ d ∈ docs, d.DeviceId ≠ device_id) :
    addToSet device_id unix docs = docs ++ [{ DeviceId := device_id, Pings := [unix] }] := by
  induction docs with
  | nil => rfl
  | cons d rest ih =>
    have hd : d.DeviceId ≠ device_id := h d (List.mem_cons_self _ _)
    rw [addToSet, if_neg hd, ih (fun x hx => h x (List.mem_cons_of_mem _ hx))]
    rfl

theorem addToSet_ids (device_id : String) (unix : Int) (docs : List Device) :
    (addToSet device_id unix docs).map (fun d => d.DeviceId)
      = if device_id ∈ docs.map (fun d => d.DeviceId) then docs.map (fun d => d.DeviceId)
        else docs.map (fun d => d.DeviceId) ++ [device_id] := by
  induction docs with
  | nil => simp [addToSet]
  | cons d rest ih =>
    by_cases h : d.DeviceId = device_id
    · have e : (if unix ∈ d.Pings then d else { d with Pings := d.Pings ++ [unix] }).DeviceId
          = d.DeviceId := by split <;> rfl
      simp only [addToSet, if_pos h, List.map_cons, e]
      rw [if_pos (by rw [h]; exact List.mem_cons_self _ _)]
    · simp only [addToSet, if_neg h, List.map_cons, ih, List.mem_cons]
      have h2 : ¬ device_id = d.DeviceId := fun e => h e.symm
      simp only [h2, false_or]
      split <;> rfl

theorem addToSet_uniqueIds (device_id : String) (unix : Int) (docs : List Device)
    (h : UniqueIds docs) : UniqueIds (addToSet device_id unix docs) := by
  unfold UniqueIds at *
  rw [addToSet_ids]
  split
  · exact h
  · rename_i hn
    rw [List.nodup_append]
    refine ⟨h, List.nodup_singleton _, ?_⟩
    intro a ha hb
    rw [List.mem_singleton] at hb
    subst hb
    exact hn ha

theorem addToSet_mem (device_id : String) (unix : Int) (docs : List Device) (x : Device)
    (hx : x ∈ addToSet device_id unix docs) :
    x ∈ docs ∨ (x.DeviceId = device_id ∧ x.Pings = [unix])
      ∨ (x.DeviceId = device_id ∧ ∃ d ∈ docs, unix ∉ d.Pings ∧ x.Pings = d.Pings ++ [unix]) := by
  induction docs with
  | nil =>
    simp only [addToSet, List.mem_singleton] at hx
    subst hx
    exact Or.inr (Or.inl ⟨rfl, rfl⟩)
  | cons d rest ih =>
    by_cases h : d.DeviceId = device_id
    · simp only [addToSet, if_pos h, List.mem_cons] at hx
      rcases hx with hx | hx
      · by_cases hu : unix ∈ d.Pings
        · rw [if_pos hu] at hx
          subst hx
          exact Or.inl (List.mem_cons_self _ _)
        · rw [if_neg hu] at hx
          subst hx
          exact Or.inr (Or.inr ⟨h, d, List.mem_cons_self _ _, hu, rfl⟩)
      · exact Or.inl (List.mem_cons_of_mem _ hx)
    · simp only [addToSet, if_neg h, List.mem_cons] at hx
      rcases hx with hx | hx
      · subst hx
        exact Or.inl (List.mem_cons_self _ _)
      · rcases ih hx with h1 | h1 | ⟨h1, d2, hd2, h2⟩
        · exact Or.inl (List.mem_cons_of_mem _ h1)
        · exact Or.inr (Or.inl h1)
        · exact Or.inr (Or.inr ⟨h1, d2, List.mem_cons_of_mem _ hd2, h2⟩)

theorem addToSet_noDupPings (device_id : String) (unix : Int) (docs : List Device)
    (h : NoDupPings docs) : NoDupPings (addToSet device_id unix docs) := by
  intro x hx
  rcases addToSet_mem device_id unix docs x hx with h1 | ⟨_, h1⟩ | ⟨_, d, hd, hu, h1⟩
  · exact h x h1
  · rw [h1]; exact List.nodup_singleton _
  · rw [h1, List.nodup_append]
    refine ⟨h d hd, List.nodup_singleton _, ?_⟩
    intro a ha hb
    rw [List.mem_singleton] at hb
    subst hb
    exact hu ha

theorem addToSet_has_ping (device_id : String) (unix : Int) (docs : List Device) (x : Device)
    (hu : UniqueIds docs) (hx : x ∈ addToSet device_id unix docs)
    (hid : x.DeviceId = device_id) : unix ∈ x.Pings := by
  induction docs with
  | nil =>
    simp only [addToSet, List.mem_singleton] at hx
    subst hx
    simp
  | cons d rest ih =>
    unfold UniqueIds at hu
    rw [List.map_cons, List.nodup_cons] at hu
    by_cases h : d.DeviceId = device_id
    · simp only [addToSet, if_pos h, List.mem_cons] at hx
      rcases hx with hx | hx
      · by_cases hp : unix ∈ d.Pings
        · rw [if_pos hp] at hx; subst hx; exact hp
        · rw [if_neg hp] at hx; subst hx; simp
      · exfalso
        apply hu.1
        rw [h, ← hid]
        exact List.mem_map_of_mem _ hx
    · simp only [addToSet, if_neg h, List.mem_cons] at hx
      rcases hx with hx | hx
      · subst hx; exact absurd hid h
      · exact ih hu.2 hx

theorem count_ids_eq_one (docs : List Device) (device_id : String)
    (hu : UniqueIds docs) (hm : device_id ∈ docs.map (fun d => d.DeviceId)) :
    (docs.filter (fun d => decide (d.DeviceId = device_id))).length = 1 := by
  induction docs with
  | nil => simp at hm
  | cons d rest ih =>
    unfold UniqueIds at hu
    rw [List.map_cons, List.nodup_cons] at hu
    by_cases h : d.DeviceId = device_id
    · rw [List.filter_cons, if_pos (by simpa using h)]
      have hr : rest.filter (fun d => decide (d.DeviceId = device_id)) = [] := by
        rw [List.filter_eq_nil_iff]
        intro x hx
        simp only [decide_eq_true_eq]
        intro hxe
        apply hu.1
        rw [h, ← hxe]
        exact List.mem_map_of_mem _ hx
      rw [hr]; rfl
    · rw [List.filter_cons, if_neg (by simpa using h)]
      apply ih hu.2
      rw [List.map_cons, List.mem_cons] at hm
      rcases hm with hm | hm
      · exact absurd hm.symm h
      · exact hm

theorem addToSet_has_id (device_id : String) (unix : Int) (docs : List Device) :
    device_id ∈ (addToSet device_id unix docs).map (fun d => d.DeviceId) := by
  rw [addToSet_ids]
  split
  · assumption
  · simp

/-! ## Lemmas on the window of a query -/

theorem civilDate_valid (s : List Char) (y m d : Int) (h : civilDate s = some (y, m, d)) :
    0 ≤ y ∧ y ≤ 9999 ∧ 1 ≤ m ∧ m ≤ 12 ∧ 1 ≤ d ∧ d ≤ monthLength y m := by
  rcases s with _ | ⟨y1, _ | ⟨y2, _ | ⟨y3, _ | ⟨y4, _ | ⟨s1, _ | ⟨m1, _ | ⟨m2, _ | ⟨s2, _ |
    ⟨d1, _ | ⟨d2, _ | ⟨x, rest⟩⟩⟩⟩⟩⟩⟩⟩⟩⟩⟩
  case cons.cons.cons.cons.cons.cons.cons.cons.cons.cons.nil =>
    simp only [civilDate] at h
    split_ifs at h with hc
    obtain ⟨⟨hy1, hy2, hy3, hy4, _⟩, _, _, hm0, hm1, hd0, hd1⟩ := hc
    have b1 := digitVal_bounds y1 hy1
    have b2 := digitVal_bounds y2 hy2
    have b3 := digitVal_bounds y3 hy3
    have b4 := digitVal_bounds y4 hy4
    simp only [Option.some.injEq, Prod.mk.injEq] at h
    obtain ⟨ey, em, ed⟩ := h
    subst ey em ed
    exact ⟨by omega, by omega, hm0, hm1, hd0, hd1⟩
  all_goals simp [civilDate] at h

theorem midnightUTC_nextDay (y m d : Int) (hm0 : 1 ≤ m) (hm1 : m ≤ 12)
    (hd1 : d ≤ monthLength y m) :
    midnightUTC (nextDay y m d).1 (nextDay y m d).2.1 (nextDay y m d).2.2
      = midnightUTC y m d + 86400 := by
  unfold midnightUTC
  rw [daysFromEpoch_nextDay y m d hm0 hm1 hd1]
  ring

theorem Parse_civil (s : List Char) (y m d : Int) (h : civilDate s = some (y, m, d)) :
    ∃ t, Parse s = some t ∧ t.Unix = midnightUTC y m d
      ∧ (t.AddDate 0 0 1).Unix
          = midnightUTC (nextDay y m d).1 (nextDay y m d).2.1 (nextDay y m d).2.2 := by
  obtain ⟨hy0, hy1, hm0, hm1, hd0, hd1⟩ := civilDate_valid s y m d h
  have hd31 := (monthLength_le y m).2
  refine ⟨Date y m d 0 0 0 0, ?_, ?_, ?_⟩
  · rw [Parse_eq, h]; rfl
  · exact Date_Unix_midnight y m d hy0 (by omega) hm0 hm1 hd0 (by omega)
  · rw [AddDate_one_day y m d hy0 (by omega) hm0 hm1 hd0 hd1,
      Date_Unix_midnight y m (d + 1) hy0 (by omega) hm0 hm1 (by omega) (by omega),
      midnightUTC_nextDay y m d hm0 hm1 hd1]
    unfold midnightUTC daysFromEpoch
    ring

theorem Parse_none_iff (s : List Char) : Parse s = none ↔ civilDate s = none := by
  rw [Parse_eq]
  cases civilDate s <;> simp

/-- The lower bound that `getRange` computes from the token `from`. -/
theorem range_start (tok : List Char) :
    (match Parse tok with
      | none =>
        match ParseInt tok with
        | .error _ => none
        | .ok i => some i
      | some t1 => some t1.Unix) = startBound tok := by
  unfold startBound
  cases hc : civilDate tok with
  | none =>
    rw [(Parse_none_iff tok).2 hc]
    simp only [← ParseInt_eq]
    cases ParseInt tok <;> rfl
  | some ymd =>
    obtain ⟨y, m, d⟩ := ymd
    obtain ⟨t, ht, hu, _⟩ := Parse_civil tok y m d hc
    rw [ht]
    simp only [hu]

/-- The upper bound that `getRange` computes from the token `to`. -/
theorem range_end (tok : List Char) :
    (match Parse tok with
      | none =>
        match ParseInt tok with
        | .error _ => none
        | .ok i => some i
      | some t2 => some (t2.AddDate 0 0 1).Unix) = endBound tok := by
  unfold endBound
  cases hc : civilDate tok with
  | none =>
    rw [(Parse_none_iff tok).2 hc]
    simp only [← ParseInt_eq]
    cases ParseInt tok <;> rfl
  | some ymd =>
    obtain ⟨y, m, d⟩ := ymd
    obtain ⟨t, ht, _, hu⟩ := Parse_civil tok y m d hc
    rw [ht]
    simp only [hu]

theorem getRange_unfold (ds : DataStore) (w : ResponseWriter) (device_id from_ to_ : String) :
    getRange ds w device_id from_ to_
      = match startBound from_.toList with
        | none => ((w.WriteHeader StatusBadRequest).Write (marshalInts (some [])), ds)
        | some start =>
          match endBound to_.toList with
          | none => ((w.WriteHeader StatusBadRequest).Write (marshalInts (some [])), ds)
          | some end_ => queryWindow ds w device_id start end_ := by
  rw [← range_start from_.toList, ← range_end to_.toList]
  rfl

theorem getDate_unfold (ds : DataStore) (w : ResponseWriter) (device_id date : String) :
    getDate ds w device_id date
      = match civilDate date.toList with
        | none => ((w.WriteHeader StatusBadRequest).Write (marshalInts (some [])), ds)
        | some (y, m, d) =>
          queryWindow ds w device_id (midnightUTC y m d)
            (midnightUTC (nextDay y m d).1 (nextDay y m d).2.1 (nextDay y m d).2.2) := by
  unfold getDate
  cases hc : civilDate date.toList with
  | none => rw [(Parse_none_iff _).2 hc]
  | some ymd =>
    obtain ⟨y, m, d⟩ := ymd
    obtain ⟨t, ht, hu, hn⟩ := Parse_civil _ y m d hc
    rw [ht]
    simp only [hu, hn]
    rfl

theorem startBound_none_iff (tok : List Char) : startBound tok = none ↔ badToken tok := by
  unfold startBound badToken
  cases hc : civilDate tok with
  | none => simp
  | some ymd => obtain ⟨y, m, d⟩ := ymd; simp

theorem endBound_none_iff (tok : List Char) : endBound tok = none ↔ badToken tok := by
  unfold endBound badToken
  cases hc : civilDate tok with
  | none => simp
  | some ymd => obtain ⟨y, m, d⟩ := ymd; simp


/-- Every collection the handlers can produce has unique device ids and no repeated
ping. -/
theorem reachable_invariants (docs : List Device) (h : Reachable docs) :
    UniqueIds docs ∧ NoDupPings docs := by
  induction h with
  | empty => exact ⟨by decide, by decide⟩
  | clear _ _ _ => exact ⟨by decide, by decide⟩
  | upsert docs device_id unix _ ih =>
    exact ⟨addToSet_uniqueIds device_id unix docs ih.1,
      addToSet_noDupPings device_id unix docs ih.2⟩

/-- The body of `getPings` for `device_id = "all"` when no device has a ping in
the window: the empty map. -/
theorem allBody_of_no_match (ds : DataStore) (start end_ : Int)
    (h : ∀ dev ∈ ds.collection, ∀ t ∈ dev.Pings, ¬ (start ≤ t ∧ t < end_)) :
    (getPings ds "all" start end_).1 = ("\x7b\x7d", false) := by
  rw [getPings_all]
  have e : ∀ (devs : List Device) (acc : GoMap),
      (∀ dev ∈ devs, ∀ t ∈ dev.Pings, ¬ (start ≤ t ∧ t < end_)) →
      getPingsLoop start end_ devs acc = acc := by
    intro devs
    induction devs with
    | nil => intro acc _; rfl
    | cons x rest ih =>
      intro acc hx
      have hn : ¬ getPingsIn x.Pings start end_ ≠ none := by
        rw [getPingsIn_ne_none_iff]
        rintro ⟨t, ht, hw⟩
        exact hx x (List.mem_cons_self _ _) t ht hw
      unfold getPingsLoop
      simp only []
      rw [if_neg hn]
      exact ih acc (fun d hd => hx d (List.mem_cons_of_mem _ hd))
  rw [e ds.collection (some []) h]
  decide

/-! ## The claims -/

/-- C1: `getPingsIn pings start end` holds exactly the pings `t` with
`start <= t < end`, in their order in `pings`; it is the nil slice when there is
none; a ping equal to `start` is kept (in a window that is not empty) and a
ping equal to `end` is dropped. -/
theorem getPingsIn_spec (pings : List Int) (start end_ : Int) :
    (getPingsIn pings start end_).elems
        = pings.filter (fun t => decide (start ≤ t ∧ t < end_))
    ∧ (getPingsIn pings start end_ = none ↔ ∀ t ∈ pings, ¬ (start ≤ t ∧ t < end_))
    ∧ (start ∈ (getPingsIn pings start end_).elems ↔ start ∈ pings ∧ start < end_)
    ∧ end_ ∉ (getPingsIn pings start end_).elems := by
  refine ⟨getPingsIn_elems pings start end_, ?_, ?_, ?_⟩
  · rw [getPingsIn_eq_none_iff, List.filter_eq_nil_iff]
    simp
  · rw [getPingsIn_elems, List.mem_filter]
    simp
  · rw [getPingsIn_elems, List.mem_filter]
    simp

/-- C2: on a collection with unique device ids, the map that `getPings` builds
for `device_id = "all"` and marshals as the body has the key `d` exactly when
device `d` has a ping in the window, the value at `d` being the pings of `d`
in the window; with `A = [100, 200]` outside the window and `B = [150]` inside,
the body is the map with the single entry `B: [150]`. -/
theorem getPings_all_mapping (ds : DataStore) (start end_ : Int)
    (hu : UniqueIds ds.collection) :
    ∃ data : List (String × Slice),
      getPingsLoop start end_ ds.collection (some []) = some data
      ∧ (getPings ds "all" start end_).1 = (marshalMap (some data), false)
      ∧ (data.map Prod.fst).Nodup
      ∧ (∀ d : String, (GoMap.get (some data) d).isSome
            ↔ ∃ dev ∈ ds.collection, dev.DeviceId = d ∧ ∃ t ∈ dev.Pings, start ≤ t ∧ t < end_)
      ∧ (∀ dev ∈ ds.collection, (∃ t ∈ dev.Pings, start ≤ t ∧ t < end_) →
            GoMap.get (some data) dev.DeviceId
              = some (some (dev.Pings.filter (fun t => decide (start ≤ t ∧ t < end_)))))
      ∧ (∀ calls, (¬ (start ≤ 100 ∧ 100 < end_)) → (¬ (start ≤ 200 ∧ 200 < end_)) →
            (start ≤ 150 ∧ 150 < end_) →
            (getPings ⟨[⟨"A", [100, 200]⟩, ⟨"B", [150]⟩], calls⟩ "all" start end_).1
              = ("\x7b\"B\":[150]\x7d", false)) := by
  obtain ⟨data, hdata⟩ := getPingsLoop_some start end_ ds.collection []
  refine ⟨data, hdata, ?_, ?_, ?_, ?_, ?_⟩
  · rw [getPings_all, hdata]
  · exact getPingsLoop_nodup start end_ ds.collection [] (by simp) data hdata
  · intro d
    rw [← hdata, getPingsLoop_get_isSome]
    simp [GoMap.get]
  · intro dev hd hit
    rw [← hdata]
    exact getPingsLoop_get_value start end_ ds.collection [] hu dev hd hit
  · intro calls h1 h2 h3
    rw [getPings_all]
    have e : getPingsLoop start end_ [⟨"A", [100, 200]⟩, ⟨"B", [150]⟩] (some [])
        = some [("B", some [150])] := by
      simp [getPingsLoop, getPingsIn, getPingsInLoop, h1, h2, h3, GoMap.set, setEntry,
        Slice.append]
    simp only [e]
    decide

/-- C2 at the store with `A = [100, 200]` and `B = [150]` and the window
`[120, 180)`: the ids are unique and the body is the map with the single entry
`B: [150]`. -/
theorem getPings_all_mapping_witness :
    UniqueIds [⟨"A", [100, 200]⟩, ⟨"B", [150]⟩]
    ∧ (getPings ⟨[⟨"A", [100, 200]⟩, ⟨"B", [150]⟩], []⟩ "all" 120 180).1
        = ("\x7b\"B\":[150]\x7d", false) := by
  obtain ⟨_, _, _, _, _, _, hex⟩ :=
    getPings_all_mapping ⟨[⟨"A", [100, 200]⟩, ⟨"B", [150]⟩], []⟩ 120 180 (by decide)
  exact ⟨by decide, hex [] (by decide) (by decide) (by decide)⟩

/-- C3: for a device id other than `"all"`, `getPings` flags an error exactly
when the lookup of the device fails, that is when no document has the id; the
body is then `[]`; when the device is found and has no ping in the window the
body is `[]` as well, not `null`, and no error is flagged. -/
theorem getPings_single (ds : DataStore) (device_id : String) (start end_ : Int)
    (hne : device_id ≠ "all") :
    ((getPings ds device_id start end_).1.2 = true
        ↔ (ds.FindOne device_id).1 = .error .notFound)
    ∧ ((ds.FindOne device_id).1 = .error .notFound
        ↔ ¬ ∃ d ∈ ds.collection, d.DeviceId = device_id)
    ∧ ((¬ ∃ d ∈ ds.collection, d.DeviceId = device_id) →
        (getPings ds device_id start end_).1 = ("[]", true))
    ∧ (∀ d, (ds.FindOne device_id).1 = .ok d → (∀ t ∈ d.Pings, ¬ (start ≤ t ∧ t < end_)) →
        (getPings ds device_id start end_).1 = ("[]", false)
        ∧ marshalInts (getPingsIn d.Pings start end_) = "null") := by
  refine ⟨?_, FindOne_error_iff ds device_id, ?_, ?_⟩
  · cases h : ds.collection.find? (fun d => d.DeviceId = device_id) with
    | none =>
      rw [getPings_one_missing ds device_id start end_ hne h]
      simp [DataStore.FindOne, h]
    | some d =>
      rw [getPings_one_found ds device_id start end_ hne d h]
      simp [DataStore.FindOne, h]
  · intro hno
    have h : ds.collection.find? (fun d => d.DeviceId = device_id) = none := by
      rw [List.find?_eq_none]
      intro x hx hxe
      exact hno ⟨x, hx, by simpa using hxe⟩
    exact getPings_one_missing ds device_id start end_ hne h
  · intro d hd hnone
    have h : ds.collection.find? (fun d => d.DeviceId = device_id) = some d := by
      unfold DataStore.FindOne at hd
      cases hf : ds.collection.find? (fun d => d.DeviceId = device_id) with
      | none => rw [hf] at hd; simp at hd
      | some x => rw [hf] at hd; simp only [Except.ok.injEq] at hd; rw [hd]
    have hempty : inWindow d.Pings start end_ = [] := by
      rw [inWindow, List.filter_eq_nil_iff]
      intro t ht
      simpa using hnone t ht
    constructor
    · rw [getPings_one_found ds device_id start end_ hne d h, hempty]
      decide
    · rw [(getPingsIn_eq_none_iff _ _ _).2 hempty]
      rfl

/-- C3 at a store with device `A = [100, 200]`: `B` is not found, `A` has no
ping in `[0, 1)`. -/
theorem getPings_single_witness :
    "B" ≠ "all" ∧ "A" ≠ "all"
    ∧ ((getPings ⟨[⟨"A", [100, 200]⟩], []⟩ "B" 0 1).1 = ("[]", true))
    ∧ ((getPings ⟨[⟨"A", [100, 200]⟩], []⟩ "A" 0 1).1 = ("[]", false)) := by
  have hB := getPings_single ⟨[⟨"A", [100, 200]⟩], []⟩ "B" 0 1 (by decide)
  have hA := getPings_single ⟨[⟨"A", [100, 200]⟩], []⟩ "A" 0 1 (by decide)
  exact ⟨by decide, by decide, hB.2.2.1 (by decide),
    (hA.2.2.2 ⟨"A", [100, 200]⟩ (by decide) (by decide)).1⟩

/-- C4: when `from` and `to` each write a date or a base-10 `int64`, `getRange`
answers the query of the window whose start is midnight UTC of `from` when it
is a date and the integer otherwise, and whose end is midnight UTC of the day
after `to` when it is a date and the integer, with no day added, otherwise;
`from = "2021-06-01"`, `to = "1623200000"` give the window
`[1622505600, 1623200000)`. -/
theorem getRange_window (ds : DataStore) (w : ResponseWriter) (device_id from_ to_ : String)
    (start end_ : Int) (hs : startBound from_.toList = some start)
    (he : endBound to_.toList = some end_) :
    getRange ds w device_id from_ to_ = queryWindow ds w device_id start end_
    ∧ (∀ y m d, civilDate from_.toList = some (y, m, d) → start = midnightUTC y m d)
    ∧ (civilDate from_.toList = none → intToken from_.toList = some start)
    ∧ (∀ y m d, civilDate to_.toList = some (y, m, d) →
        end_ = midnightUTC (nextDay y m d).1 (nextDay y m d).2.1 (nextDay y m d).2.2
        ∧ end_ = midnightUTC y m d + 86400)
    ∧ (civilDate to_.toList = none → intToken to_.toList = some end_)
    ∧ startBound "2021-06-01".toList = some 1622505600
    ∧ endBound "1623200000".toList = some 1623200000
    ∧ getRange ds w device_id "2021-06-01" "1623200000"
        = queryWindow ds w device_id 1622505600 1623200000 := by
  have h1 : startBound "2021-06-01".toList = some 1622505600 := by decide
  have h2 : endBound "1623200000".toList = some 1623200000 := by decide
  refine ⟨?_, ?_, ?_, ?_, ?_, h1, h2, ?_⟩
  · rw [getRange_unfold, hs, he]
  · intro y m d hc
    rw [startBound, hc] at hs
    exact (Option.some.inj hs).symm
  · intro hc
    rw [startBound, hc] at hs
    exact hs
  · intro y m d hc
    obtain ⟨_, _, hm0, hm1, _, hd1⟩ := civilDate_valid _ y m d hc
    rw [endBound, hc] at he
    have e := (Option.some.inj he).symm
    exact ⟨e, by rw [e, midnightUTC_nextDay y m d hm0 hm1 hd1]⟩
  · intro hc
    rw [endBound, hc] at he
    exact he
  · rw [getRange_unfold, h1, h2]

/-- C4 at two date tokens: the start bound of `2021-05-31` is its midnight, the
end bound of `2021-06-01` is midnight of `2021-06-02`. -/
theorem getRange_window_witness :
    startBound "2021-05-31".toList = some 1622419200
    ∧ endBound "2021-06-01".toList = some 1622592000
    ∧ getRange ⟨[⟨"A", [1622505600, 1622592000]⟩], []⟩ .new "A" "2021-05-31" "2021-06-01"
        = queryWindow ⟨[⟨"A", [1622505600, 1622592000]⟩], []⟩ .new "A" 1622419200 1622592000 :=
  ⟨by decide, by decide,
    (getRange_window ⟨[⟨"A", [1622505600, 1622592000]⟩], []⟩ .new "A" "2021-05-31" "2021-06-01"
      1622419200 1622592000 (by decide) (by decide)).1⟩

/-- C5: for a token that writes the valid date `y-m-d`, `getDate` answers the
query of the window from midnight UTC of that date to midnight UTC of the next
calendar day, which is 86400 seconds later; `"2021-06-01"` gives the window
`[1622505600, 1622592000)`. -/
theorem getDate_window (ds : DataStore) (w : ResponseWriter) (device_id date : String)
    (y m d : Int) (h : civilDate date.toList = some (y, m, d)) :
    getDate ds w device_id date
        = queryWindow ds w device_id (midnightUTC y m d)
            (midnightUTC (nextDay y m d).1 (nextDay y m d).2.1 (nextDay y m d).2.2)
    ∧ midnightUTC (nextDay y m d).1 (nextDay y m d).2.1 (nextDay y m d).2.2
        = midnightUTC y m d + 86400
    ∧ civilDate "2021-06-01".toList = some (2021, 6, 1)
    ∧ nextDay 2021 6 1 = (2021, 6, 2)
    ∧ midnightUTC 2021 6 1 = 1622505600
    ∧ midnightUTC 2021 6 2 = 1622592000
    ∧ getDate ds w device_id "2021-06-01"
        = queryWindow ds w device_id 1622505600 1622592000 := by
  obtain ⟨_, _, hm0, hm1, _, hd1⟩ := civilDate_valid _ y m d h
  have hc : civilDate "2021-06-01".toList = some (2021, 6, 1) := by decide
  refine ⟨?_, midnightUTC_nextDay y m d hm0 hm1 hd1, hc, by decide, by decide, by decide, ?_⟩
  · rw [getDate_unfold, h]
  · rw [getDate_unfold, hc]
    rfl

/-- C5 at the last day of a leap February. -/
theorem getDate_window_witness :
    civilDate "2020-02-29".toList = some (2020, 2, 29)
    ∧ getDate ⟨[⟨"A", [1582934400]⟩], []⟩ .new "A" "2020-02-29"
        = queryWindow ⟨[⟨"A", [1582934400]⟩], []⟩ .new "A" (midnightUTC 2020 2 29)
            (midnightUTC (nextDay 2020 2 29).1 (nextDay 2020 2 29).2.1 (nextDay 2020 2 29).2.2)
    ∧ nextDay 2020 2 29 = (2020, 3, 1) :=
  ⟨by decide,
    (getDate_window ⟨[⟨"A", [1582934400]⟩], []⟩ .new "A" "2020-02-29" 2020 2 29 (by decide)).1,
    by decide⟩

/-- C6: when the token `from` or the token `to` writes neither a date nor a
base-10 `int64`, `getRange` answers 400 with the body `[]`, whatever the other
token and the device id are, and makes no call to the database: the data store
and its record of driver calls are unchanged. -/
theorem getRange_bad_token (ds : DataStore) (w : ResponseWriter) (device_id from_ to_ : String)
    (h : badToken from_.toList ∨ badToken to_.toList) :
    getRange ds w device_id from_ to_ = ((w.WriteHeader StatusBadRequest).Write "[]", ds)
    ∧ (getRange ds ResponseWriter.new device_id from_ to_).1 = ⟨some 400, "[]"⟩
    ∧ (getRange ds w device_id from_ to_).2.calls = ds.calls := by
  have key : ∀ w2 : ResponseWriter,
      getRange ds w2 device_id from_ to_ = ((w2.WriteHeader StatusBadRequest).Write "[]", ds) := by
    intro w2
    rw [getRange_unfold]
    rcases h with h | h
    · rw [(startBound_none_iff _).2 h]; rfl
    · rw [(endBound_none_iff _).2 h]
      cases startBound from_.toList <;> rfl
  refine ⟨key w, ?_, ?_⟩
  · rw [key]
    exact (by decide :
      (ResponseWriter.new.WriteHeader StatusBadRequest).Write "[]" = ⟨some 400, "[]"⟩)
  · rw [key]

/-- C6 at a bad `from` with a good `to`, and at a good `from` with a `to` that
is no day of the calendar. -/
theorem getRange_bad_token_witness :
    (badToken "yesterday".toList ∨ badToken "2021-06-01".toList)
    ∧ (getRange ⟨[⟨"A", [100]⟩], []⟩ .new "A" "yesterday" "2021-06-01")
        = (⟨some 400, "[]"⟩, ⟨[⟨"A", [100]⟩], []⟩)
    ∧ (badToken "0".toList ∨ badToken "2021-02-30".toList)
    ∧ (getRange ⟨[⟨"A", [100]⟩], []⟩ .new "all" "0" "2021-02-30")
        = (⟨some 400, "[]"⟩, ⟨[⟨"A", [100]⟩], []⟩) :=
  ⟨by decide,
    (getRange_bad_token ⟨[⟨"A", [100]⟩], []⟩ .new "A" "yesterday" "2021-06-01" (by decide)).1,
    by decide,
    (getRange_bad_token ⟨[⟨"A", [100]⟩], []⟩ .new "all" "0" "2021-02-30" (by decide)).1⟩

/-- C7: what the code does where the claim expects the body `[]`: on the empty
store, and on a store whose only device has no ping in the window, `getPings`
with `device_id = "all"` returns the body of the empty map, which differs from
the body of an empty sequence; the error flag is false. -/
theorem getPings_all_no_match_body :
    (getPings ⟨[], []⟩ "all" 0 1).1 = ("\x7b\x7d", false)
    ∧ (getPings ⟨[⟨"A", [100, 200]⟩], []⟩ "all" 0 1).1 = ("\x7b\x7d", false)
    ∧ (getPings ⟨[], []⟩ "all" 0 1).1.1 ≠ marshalInts (some [])
    ∧ marshalInts (some []) = "[]" := by
  decide

/-- C8: the upsert of `postPing` is idempotent: doing it twice leaves the
collection that doing it once leaves; the record is created when the device
was absent; on a collection with unique ids and no repeated ping, afterwards
the device has exactly one record, the timestamp occurs exactly once in its
pings, and both invariants still hold.  The handler `postPing` does this
upsert on a token that writes the timestamp. -/
theorem postPing_upsert_idempotent (ds : DataStore) (device_id : String) (unix : Int) :
    ((ds.Upsert device_id unix).2.Upsert device_id unix).2.collection
        = (ds.Upsert device_id unix).2.collection
    ∧ ((∀ d ∈ ds.collection, d.DeviceId ≠ device_id) →
        (ds.Upsert device_id unix).2.collection
          = ds.collection ++ [{ DeviceId := device_id, Pings := [unix] }])
    ∧ (UniqueIds ds.collection → NoDupPings ds.collection →
        ((ds.Upsert device_id unix).2.collection.filter
            (fun d => decide (d.DeviceId = device_id))).length = 1
        ∧ (∀ d ∈ (ds.Upsert device_id unix).2.collection, d.DeviceId = device_id →
            d.Pings.count unix = 1)
        ∧ UniqueIds (ds.Upsert device_id unix).2.collection
        ∧ NoDupPings (ds.Upsert device_id unix).2.collection)
    ∧ (∀ (w : ResponseWriter) (epoch_time : String), ParseInt epoch_time.toList = .ok unix →
        (postPing ds w device_id epoch_time).2 = (ds.Upsert device_id unix).2
        ∧ ((postPing ds w device_id epoch_time).2.Upsert device_id unix).2.collection
            = (postPing ds w device_id epoch_time).2.collection) := by
  refine ⟨?_, ?_, ?_, ?_⟩
  · exact addToSet_idem device_id unix ds.collection
  · intro h
    exact addToSet_absent device_id unix ds.collection h
  · intro hu hp
    have hu2 := addToSet_uniqueIds device_id unix ds.collection hu
    have hp2 := addToSet_noDupPings device_id unix ds.collection hp
    refine ⟨?_, ?_, hu2, hp2⟩
    · exact count_ids_eq_one _ device_id hu2 (addToSet_has_id device_id unix ds.collection)
    · intro d hd hid
      exact List.count_eq_one_of_mem (hp2 d hd)
        (addToSet_has_ping device_id unix ds.collection d hu hd hid)
  · intro w epoch_time hparse
    have e : (postPing ds w device_id epoch_time).2 = (ds.Upsert device_id unix).2 := by
      unfold postPing
      rw [hparse]
      rfl
    rw [e]
    exact ⟨rfl, addToSet_idem device_id unix ds.collection⟩

/-- C8 at a store with device `A = [100]`, whose ids are unique and whose pings
are not repeated: pinging `A` at 200 twice, and at 100 again. -/
theorem postPing_upsert_idempotent_witness :
    UniqueIds [⟨"A", [100]⟩] ∧ NoDupPings [⟨"A", [100]⟩]
    ∧ (((postPing ⟨[⟨"A", [100]⟩], []⟩ .new "A" "200").2.Upsert "A" 200).2.collection
        = [⟨"A", [100, 200]⟩])
    ∧ (((⟨[⟨"A", [100]⟩], []⟩ : DataStore).Upsert "A" 100).2.collection.filter
          (fun d => decide (d.DeviceId = "A"))).length = 1 := by
  have h := postPing_upsert_idempotent ⟨[⟨"A", [100]⟩], []⟩ "A" 200
  have h2 := postPing_upsert_idempotent ⟨[⟨"A", [100]⟩], []⟩ "A" 100
  refine ⟨by decide, by decide, ?_, (h2.2.2.1 (by decide) (by decide)).1⟩
  rw [(h.2.2.2 .new "200" (by decide)).2]
  decide

/-- C9: after `clearData` the collection is empty, `getDevices` answers 200
with the empty list `[]`, and `getPings` for any device id other than `"all"`
and any window returns `[]` with the error flag set, as for a device that is
not found. -/
theorem clearData_then_queries (ds : DataStore) (w : ResponseWriter) (device_id : String)
    (start end_ : Int) (hne : device_id ≠ "all") :
    (clearData ds w).2.collection = []
    ∧ (clearData ds w).1 = w.WriteHeader StatusOK
    ∧ (getDevices (clearData ds w).2 .new).1 = ⟨some 200, "[]"⟩
    ∧ (getPings (clearData ds w).2 device_id start end_).1 = ("[]", true)
    ∧ ((clearData ds w).2.FindOne device_id).1 = .error .notFound := by
  refine ⟨rfl, rfl, ?_, ?_, ?_⟩
  · simp only [getDevices, DataStore.FindAll, clearData, DataStore.RemoveAll, List.map_nil]
    decide
  · exact getPings_one_missing _ device_id start end_ hne rfl
  · rfl

/-- C9 at a store with devices `A` and `B`, asking for `A` after the clear. -/
theorem clearData_then_queries_witness :
    "A" ≠ "all"
    ∧ (getDevices (clearData ⟨[⟨"A", [100, 200]⟩, ⟨"B", [150]⟩], []⟩ .new).2 .new).1
        = ⟨some 200, "[]"⟩
    ∧ (getPings (clearData ⟨[⟨"A", [100, 200]⟩, ⟨"B", [150]⟩], []⟩ .new).2 "A" 0 1000).1
        = ("[]", true) := by
  have h := clearData_then_queries ⟨[⟨"A", [100, 200]⟩, ⟨"B", [150]⟩], []⟩ .new "A" 0 1000
    (by decide)
  exact ⟨by decide, h.2.2.1, h.2.2.2.1⟩

/-- C10: for a token `d` that writes a date, the single-date query
`getDate(device_id, d)` and the range query `getRange(device_id, d, d)` give
the same response (status and body) and leave the same data store. -/
theorem getDate_eq_getRange (ds : DataStore) (w : ResponseWriter) (device_id d : String)
    (h : (civilDate d.toList).isSome) :
    getDate ds w device_id d = getRange ds w device_id d d := by
  cases hc : civilDate d.toList with
  | none => rw [hc] at h; cases h
  | some ymd =>
    obtain ⟨y, m, dd⟩ := ymd
    rw [getDate_unfold, getRange_unfold, hc]
    simp only [startBound, endBound, hc]

/-- C10 at the date `2021-06-01` and a device with a ping on that day. -/
theorem getDate_eq_getRange_witness :
    (civilDate "2021-06-01".toList).isSome
    ∧ getDate ⟨[⟨"A", [1622505600, 1622592000]⟩], []⟩ .new "A" "2021-06-01"
        = getRange ⟨[⟨"A", [1622505600, 1622592000]⟩], []⟩ .new "A" "2021-06-01" "2021-06-01"
    ∧ (getDate ⟨[⟨"A", [1622505600, 1622592000]⟩], []⟩ .new "A" "2021-06-01").1
        = ⟨some 200, "[1622505600]"⟩ :=
  ⟨by decide,
    getDate_eq_getRange ⟨[⟨"A", [1622505600, 1622592000]⟩], []⟩ .new "A" "2021-06-01" (by decide),
    by decide⟩

end TandaPing
